import Mathlib

/-!
Shallow embedding of the `activity.2k36.org` worker core in Lean 4.

The embedding covers, faithfully to the TypeScript source:
* `worker/src/github/client.ts` — the resilient upstream client
  (`shouldRetryError`, `computeBackoffMs`, the retry loop of
  `fetchGitHubResponse`);
* `worker/src/cache.ts` — the cache policy and `classifyAge`;
* `worker/src/github/events.ts` — `parseNextLink`, `fetchEventsPage`,
  `fetchRepoForkStatus`, `fetchPullRequest`, payload extraction,
  `normalizeEvent`, `normalizeEventPreview`, `getRecentActivity` and
  `getRecentActivityPreview`.

Modelling conventions:
* JavaScript numbers are modelled as `ℚ` (rationals); event timestamps are
  modelled by the integer value `Date.parse` yields on them (only their
  parsed order is observable in the pipeline, via the final sort).
* `string | undefined` values are `Option String`; JavaScript truthiness of
  strings (`""` is falsy) is `strTruthy`; the `??` operator is `jsNullish`
  and the `||` operator on strings is `jsOrTruthy`.
* The network and the shared edge cache are an explicit environment
  (`AggEnv`, and an outcome oracle for the client retry loop): each model
  function consumes the result the corresponding `await` would observe.
* Mutable state threaded through one aggregation run (memo tables, the
  error tracker, rate-limit info) is explicit state passing on records.
* The state additionally carries ghost trace fields (`failures`,
  `produced`, `processedEvents`, `pagesFetched`, and `causes` inside the
  tracker) that record what happened during a run; they are write-only
  instrumentation, never read by the modelled code.
* `Array.prototype.sort` with comparator
  `(a, b) => Date.parse(b.createdAt) - Date.parse(a.createdAt)` is a stable
  sort by descending `createdAt`; a stable sort is uniquely determined by
  its comparator, so it is modelled by `List.insertionSort` (which is
  stable) with the same ordering.
-/

/-! ### JavaScript string helpers -/

/-- Truthiness of a `string | undefined` value: `undefined` and `""` are falsy. -/
def strTruthy : Option String → Bool
  | none => false
  | some s => s ≠ ""

/-- The JavaScript `??` operator on optional values. -/
def jsNullish {α : Type} (a b : Option α) : Option α :=
  match a with
  | some x => some x
  | none => b

/-- The JavaScript `||` operator on `string | undefined` values: returns `b`
when `a` is `undefined` or `""`. -/
def jsOrTruthy (a b : Option String) : Option String :=
  if strTruthy a then a else b

/-- Containment of `pat` in `s` as a list of characters (JavaScript
`String.prototype.includes`). -/
def charsContain : List Char → List Char → Bool
  | [], pat => pat.isEmpty
  | c :: rest, pat => pat.isPrefixOf (c :: rest) || charsContain rest pat

/-- JavaScript `s.includes(pat)`. -/
def strContainsSub (s pat : String) : Bool := charsContain s.data pat.data

/-- JavaScript `s.toLowerCase()` (ASCII-faithful). -/
def strToLower (s : String) : String := String.mk (s.data.map Char.toLower)

/-- JavaScript `s.trim()`. -/
def strTrim (s : String) : String :=
  String.mk (((s.data.dropWhile Char.isWhitespace).reverse.dropWhile Char.isWhitespace).reverse)

/-- JavaScript `s.trimEnd()`. -/
def strTrimEnd (s : String) : String :=
  String.mk ((s.data.reverse.dropWhile Char.isWhitespace).reverse)

/-- JavaScript `s.startsWith(pat)`. -/
def strStartsWith (s pat : String) : Bool := pat.data.isPrefixOf s.data

/-- JavaScript `s.slice(0, n)` for a nonnegative `n`. -/
def strTake (s : String) (n : ℕ) : String := String.mk (s.data.take n)

/-- JavaScript `s.split(c)` for a single-character separator. -/
def splitOnCharAux (c : Char) : List Char → List Char → List String
  | [], acc => [String.mk acc.reverse]
  | x :: rest, acc =>
    if x = c then String.mk acc.reverse :: splitOnCharAux c rest []
    else splitOnCharAux c rest (x :: acc)

/-- JavaScript `s.split(c)` for a single-character separator. -/
def splitOnChar (c : Char) (s : String) : List String := splitOnCharAux c s.data []

/-! ### Error model (`worker/src/github/client.ts`) -/

/-- GitHubErrorKind from `client.ts`. -/
inductive GitHubErrorKind
  | rate_limit
  | unauthorized
  | forbidden
  | not_found
  | validation
  | server
  | network
  | timeout
  | unknown
deriving DecidableEq, Repr

/-- GitHubErrorInfo from `client.ts` (identical to `ActivityErrorInfo` in
`worker/src/activity/types.ts`). -/
structure GitHubErrorInfo where
  kind : GitHubErrorKind
  status : Option ℕ := none
  retryAfter : Option ℚ := none
  rateLimitReset : Option ℚ := none
  requestId : Option String := none
  message : Option String := none
deriving DecidableEq, Repr

/-- GitHubResponseMeta from `client.ts`: headers parsed from a response. -/
structure GitHubResponseMeta where
  requestId : Option String := none
  rateLimitRemaining : Option ℚ := none
  rateLimitReset : Option ℚ := none
deriving DecidableEq, Repr

/-! ### Upstream client retry loop (`client.ts`) -/

/-- GitHubRequestOptions from `client.ts`. -/
structure GitHubRequestOptions where
  timeoutMs : Option ℚ := none
  retries : Option ℕ := none
  retryBaseMs : Option ℚ := none
  retryMaxDelayMs : Option ℚ := none
  retryMaxAfterMs : Option ℚ := none
deriving DecidableEq, Repr

/-- DEFAULT_RETRIES from `client.ts`. -/
def DEFAULT_RETRIES : ℕ := 2

/-- DEFAULT_RETRY_BASE_MS from `client.ts`. -/
def DEFAULT_RETRY_BASE_MS : ℚ := 250

/-- DEFAULT_RETRY_MAX_DELAY_MS from `client.ts`. -/
def DEFAULT_RETRY_MAX_DELAY_MS : ℚ := 2000

/-- DEFAULT_RETRY_MAX_AFTER_MS from `client.ts`. -/
def DEFAULT_RETRY_MAX_AFTER_MS : ℚ := 1000

/-- isRateLimitMessage from `client.ts`; a missing or empty message is falsy. -/
def isRateLimitMessage : Option String → Bool
  | none => false
  | some m =>
    if m = "" then false
    else
      let lowered := strToLower m
      strContainsSub lowered "rate limit" || strContainsSub lowered "secondary rate limit" ||
        strContainsSub lowered "abuse detection"

/-- classifyErrorKind from `client.ts`. -/
def classifyErrorKind (status : Option ℕ) (message : Option String) : GitHubErrorKind :=
  if status = some 401 then .unauthorized
  else if status = some 403 ∧ isRateLimitMessage message then .rate_limit
  else if status = some 429 then .rate_limit
  else if status = some 403 then .forbidden
  else if status = some 404 then .not_found
  else if status = some 422 then .validation
  else if (match status with | some s => decide (500 ≤ s) | none => false) = true then .server
  else .unknown

/-- shouldRetryError from `client.ts`. -/
def shouldRetryError (info : GitHubErrorInfo) : Bool :=
  if info.kind = .network ∨ info.kind = .timeout ∨ info.kind = .server then true
  else if info.kind = .rate_limit then true
  else false

/-- computeBackoffMs from `client.ts`. `none` is the JavaScript `null` return,
meaning "give up instead of waiting". The jitter (`Math.random() * 100`) is an
oracle parameter. -/
def computeBackoffMs (attempt : ℕ) (options : GitHubRequestOptions) (retryAfter : Option ℚ)
    (jitter : ℚ) : Option ℚ :=
  let maxAfter := options.retryMaxAfterMs.getD DEFAULT_RETRY_MAX_AFTER_MS
  match retryAfter with
  | some ra =>
    let delay := ra * 1000
    if delay > maxAfter then none else some delay
  | none =>
    let base := options.retryBaseMs.getD DEFAULT_RETRY_BASE_MS
    let maxDelay := options.retryMaxDelayMs.getD DEFAULT_RETRY_MAX_DELAY_MS
    let exp := min (base * 2 ^ (attempt - 1)) maxDelay
    some (exp + jitter)

/-- Outcome of one `fetch` attempt inside `fetchGitHubResponse`, as the
environment presents it: an abort by the timeout controller, a non-abort
transport failure, or an HTTP response with its status, parsed error message
(the result of `parseErrorMessage` on the body text), parsed `retry-after`
header and parsed meta headers. -/
inductive FetchOutcome
  | abortTimeout
  | networkFailure (message : Option String)
  | httpResponse (status : ℕ) (message : Option String) (retryAfterHeader : Option ℚ)
      (meta : GitHubResponseMeta)
deriving DecidableEq, Repr

/-- Result of the client: `ok` with parsed meta, or a classified error. -/
inductive GHClientResult
  | ok (meta : GitHubResponseMeta)
  | err (error : GitHubErrorInfo)
deriving DecidableEq, Repr

/-- One attempt of `fetchGitHubResponse`: turn the raw outcome into either a
success or a `GitHubErrorInfo`, exactly as the body of the loop does. -/
def fetchAttemptResult (o : FetchOutcome) : GitHubResponseMeta ⊕ GitHubErrorInfo :=
  match o with
  | .abortTimeout => .inr { kind := .timeout, message := some "GitHub API request timed out" }
  | .networkFailure msg => .inr { kind := .network, message := some (msg.getD "Network error") }
  | .httpResponse status message retryAfterHeader meta =>
    if 200 ≤ status ∧ status < 300 then .inl meta
    else
      .inr { kind := classifyErrorKind (some status) message
             status := some status
             retryAfter := retryAfterHeader
             rateLimitReset := meta.rateLimitReset
             requestId := meta.requestId
             message := if strTruthy message then (message.map (strTake · 200)) else none }

/-- The retry loop of `fetchGitHubResponse` from `client.ts`. `outcomes n` is
what the `n`-th fetch attempt observes and `jitters n` is the jitter drawn for
the backoff after attempt `n`; the fuel is `retries + 1 - attempt` at entry.
Returns the result together with the number of fetch calls that were made. -/
def fetchLoop (options : GitHubRequestOptions) (outcomes : ℕ → FetchOutcome) (jitters : ℕ → ℚ)
    (retries : ℕ) : ℕ → ℕ → GHClientResult × ℕ
  | 0, attempt => (.err { kind := .unknown, message := some "GitHub API request failed" }, attempt)
  | fuel + 1, attempt =>
    match fetchAttemptResult (outcomes attempt) with
    | .inl meta => (.ok meta, attempt + 1)
    | .inr info =>
      if attempt < retries ∧ shouldRetryError info then
        match computeBackoffMs attempt options info.retryAfter (jitters attempt) with
        | some _ => fetchLoop options outcomes jitters retries fuel (attempt + 1)
        | none => (.err info, attempt + 1)
      else (.err info, attempt + 1)

/-- fetchGitHubResponse from `client.ts`, as a function of the outcome oracle.
The second component counts the fetch calls made. -/
def fetchGitHubResponseModel (options : GitHubRequestOptions) (outcomes : ℕ → FetchOutcome)
    (jitters : ℕ → ℚ) : GHClientResult × ℕ :=
  let retries := options.retries.getD DEFAULT_RETRIES
  fetchLoop options outcomes jitters retries (retries + 1) 0

/-! ### Cache policy and freshness (`worker/src/cache.ts`) -/

/-- CachePolicy from `cache.ts`. -/
structure CachePolicy where
  maxAgeSeconds : ℚ
  staleWhileRevalidateSeconds : ℚ
deriving DecidableEq, Repr

/-- DEFAULT_CACHE_POLICY from `cache.ts`. -/
def DEFAULT_CACHE_POLICY : CachePolicy :=
  { maxAgeSeconds := 60, staleWhileRevalidateSeconds := 300 }

/-- The three freshness states returned by `classifyAge`. -/
inductive Freshness
  | fresh
  | stale
  | expired
deriving DecidableEq, Repr

/-- classifyAge from `cache.ts`. `none` is an unknown age (missing or
unparseable `x-generated-at` header). -/
def classifyAge (ageSeconds : Option ℚ) (policy : CachePolicy) : Freshness :=
  match ageSeconds with
  | none => .stale
  | some a =>
    if a ≤ policy.maxAgeSeconds then .fresh
    else if a ≤ policy.maxAgeSeconds + policy.staleWhileRevalidateSeconds then .stale
    else .expired

/-! ### Activity data model (`worker/src/activity/types.ts`) -/

/-- ActivityKind from `types.ts`. -/
inductive ActivityKind
  | issue_opened
  | pull_request_opened
  | pull_request_reopened
  | pull_request_closed
  | pull_request_merged
  | issue_or_pr_comment
  | pull_request_review
  | pull_request_review_comment
  | release_published
deriving DecidableEq, Repr

/-- PullRequestReviewState from `types.ts`. -/
inductive PullRequestReviewState
  | approved
  | changes_requested
  | commented
  | dismissed
  | pending
  | unknown
deriving DecidableEq, Repr

/-- ActivityActor from `types.ts`. -/
structure ActivityActor where
  login : String
  url : String
  avatarUrl : String
deriving DecidableEq, Repr

/-- ActivityRepo from `types.ts`. -/
structure ActivityRepo where
  name : String
  url : String
deriving DecidableEq, Repr

/-- ActivityItem from `types.ts`. `createdAt` is the `Date.parse` value of the
ISO timestamp string carried by the source. -/
structure ActivityItem where
  id : String
  kind : ActivityKind
  createdAt : ℤ
  actor : ActivityActor
  repo : ActivityRepo
  title : String
  url : String
  summary : Option String := none
  reviewState : Option PullRequestReviewState := none
deriving DecidableEq, Repr

/-- ActivityResponse from `types.ts`. The optional `partial` field of the
source is `isPartial` here (`none` when the field is absent). -/
structure ActivityResponse where
  username : String
  generatedAt : String
  items : List ActivityItem
  isPartial : Option Bool := none
  errorInfo : Option GitHubErrorInfo := none
deriving DecidableEq, Repr

/-- RateLimitInfo from `events.ts`. -/
structure RateLimitInfo where
  remaining : Option ℚ := none
  reset : Option ℚ := none
deriving DecidableEq, Repr

/-- ActivityFetchResult from `events.ts`. -/
structure ActivityFetchResult where
  data : ActivityResponse
  rateLimit : Option RateLimitInfo := none
deriving DecidableEq, Repr

/-- updateRateLimit from `events.ts`, applied to a success meta (which has
both a `rateLimitRemaining` and a `rateLimitReset` field). -/
def updateRateLimitFromMeta (target : RateLimitInfo) (meta : GitHubResponseMeta) :
    RateLimitInfo :=
  { remaining := match meta.rateLimitRemaining with | some v => some v | none => target.remaining
    reset := match meta.rateLimitReset with | some v => some v | none => target.reset }

/-- updateRateLimit from `events.ts`, applied to a `GitHubErrorInfo` (which
has no `rateLimitRemaining` field, so only `reset` can be updated). -/
def updateRateLimitFromError (target : RateLimitInfo) (e : GitHubErrorInfo) : RateLimitInfo :=
  { target with reset := match e.rateLimitReset with | some v => some v | none => target.reset }

/-- compactRateLimit from `events.ts`. -/
def compactRateLimit (rateLimit : RateLimitInfo) : Option RateLimitInfo :=
  if rateLimit.remaining = none ∧ rateLimit.reset = none then none else some rateLimit

/-- Ghost trace entry: one failed upstream call observed during an
aggregation run (instrumentation only, not part of the modelled state). -/
inductive RunFailure
  | pageFetch (e : GitHubErrorInfo)
  | forkFetch (e : GitHubErrorInfo)
  | prFetch (e : GitHubErrorInfo)
deriving DecidableEq, Repr

/-- ErrorTracker from `events.ts`; `isPartial` is the source's `partial`
field. `causes` is a ghost trace of every error ever recorded, in order. -/
structure ErrorTracker where
  isPartial : Bool := false
  errorInfo : Option GitHubErrorInfo := none
  causes : List GitHubErrorInfo := []
deriving DecidableEq, Repr

/-- recordPartial from `events.ts`: set the flag, keep the first error. -/
def recordPartialErr (tracker : ErrorTracker) (error : GitHubErrorInfo) : ErrorTracker :=
  { isPartial := true
    errorInfo := match tracker.errorInfo with | some e => some e | none => some error
    causes := tracker.causes ++ [error] }

/-! ### Raw GitHub events (`worker/src/github/events.ts`) -/

/-- The pull-request object optionally embedded in an event payload
(`PullRequestPayload` in `events.ts`). `merged_at` distinguishes an absent
field (outer `none`) from a present-but-`null` field (`some none`) because the
source tests `"merged_at" in pr` before comparing the value against `null`. -/
structure PullRequestPayload where
  title : Option String := none
  html_url : Option String := none
  body : Option String := none
  merged : Option Bool := none
  merged_at : Option (Option String) := none
  url : Option String := none
  number : Option ℕ := none
deriving DecidableEq, Repr

/-- The fields of `event.payload` that the normalizer reads, flattened: the
source casts `payload` per event type to shapes whose fields are collected
here (`issue.html_url` becomes `issue_html_url`, and so on). A `none` is an
absent or non-string (resp. non-number) field. -/
structure EventPayload where
  action : Option String := none
  number : Option ℕ := none
  issue_html_url : Option String := none
  issue_title : Option String := none
  issue_body : Option String := none
  comment_html_url : Option String := none
  comment_body : Option String := none
  pull_request : Option PullRequestPayload := none
  review_html_url : Option String := none
  review_body : Option String := none
  review_state : Option String := none
  release_html_url : Option String := none
  release_name : Option String := none
  release_tag_name : Option String := none
  release_body : Option String := none
deriving DecidableEq, Repr

/-- GitHubEvent from `events.ts` (actor and repo flattened). `created_at` is
the `Date.parse` value of the ISO timestamp string. -/
structure GitHubEvent where
  id : String
  type : String
  actorLogin : String
  actorUrl : String
  actorAvatarUrl : String
  repoName : String
  repoUrl : String
  payload : EventPayload
  created_at : ℤ
deriving DecidableEq, Repr

/-- repoHtmlUrl from `events.ts`. -/
def repoHtmlUrl (repoName : String) : String := "https://github.com/" ++ repoName

/-- userHtmlUrl from `events.ts`. -/
def userHtmlUrl (login : String) : String := "https://github.com/" ++ login

/-- pullRequestHtmlUrl from `events.ts`. -/
def pullRequestHtmlUrl (repoName : String) (number : ℕ) : String :=
  "https://github.com/" ++ repoName ++ "/pull/" ++ toString number

/-- Whitespace-run collapsing: the `replaceAll(/\s+/g, " ")` step of
`summarizeText`. The flag remembers whether the previous character was
whitespace (so that a run contributes a single space). -/
def collapseWsAux : Bool → List Char → List Char
  | _, [] => []
  | prevWs, c :: rest =>
    if c.isWhitespace then
      if prevWs then collapseWsAux true rest else ' ' :: collapseWsAux true rest
    else c :: collapseWsAux false rest

/-- The `replaceAll("\r\n", "\n")` step of `summarizeText`. -/
def replaceCrLf : List Char → List Char
  | [] => []
  | '\r' :: '\n' :: rest => '\n' :: replaceCrLf rest
  | c :: rest => c :: replaceCrLf rest

/-- summarizeText from `events.ts`: collapse whitespace, trim, and truncate
to `maxLen` characters with an ellipsis. A non-string input or an empty
result is `undefined`. -/
def summarizeText (input : Option String) (maxLen : ℕ := 160) : Option String :=
  match input with
  | none => none
  | some str =>
    let step1 := replaceCrLf str.data
    let step2 := step1.map (fun c => if c = '\n' then ' ' else c)
    let step3 := collapseWsAux false step2
    let s := strTrim (String.mk step3)
    if s = "" then none
    else if s.length ≤ maxLen then some s
    else some (strTrimEnd (strTake s (maxLen - 1)) ++ "…")

/-- reviewStateFromGitHub from `events.ts`. -/
def reviewStateFromGitHub (input : Option String) : PullRequestReviewState :=
  match input with
  | none => .unknown
  | some s =>
    let l := strToLower s
    if l = "approved" then .approved
    else if l = "changes_requested" then .changes_requested
    else if l = "commented" then .commented
    else if l = "dismissed" then .dismissed
    else if l = "pending" then .pending
    else .unknown

/-- The `^<(.+)>$` regex match of `parseNextLink`: strip one angle bracket
from each end, requiring a nonempty middle. -/
def matchAngleUrl (s : String) : Option String :=
  if 3 ≤ s.data.length ∧ s.data.head? = some '<' ∧ s.data.getLast? = some '>' then
    some (String.mk ((s.data.drop 1).dropLast))
  else none

/-- The loop of `parseNextLink` over the comma-separated parts of the `Link`
header: the first part whose `rel=` parameter contains `"next"` decides the
result (even when its URL fails the angle-bracket match). -/
def parseNextLinkParts : List String → Option String
  | [] => none
  | part :: rest =>
    let segs := (splitOnChar ';' (strTrim part)).map strTrim
    let rawUrl := segs.headD ""
    let params := segs.tail
    match params.find? (fun p => strStartsWith p "rel=") with
    | some rel =>
      if strContainsSub rel "\"next\"" then matchAngleUrl rawUrl
      else parseNextLinkParts rest
    | none => parseNextLinkParts rest

/-- parseNextLink from `events.ts`. -/
def parseNextLink (linkHeader : Option String) : Option String :=
  match linkHeader with
  | none => none
  | some h => if h = "" then none else parseNextLinkParts (splitOnChar ',' h)

/-! ### Page fetching (`fetchEventsPage`) -/

/-- What one call of `fetchGitHubResponse` on an events-page URL yields, as
the environment presents it to `fetchEventsPage`: a classified HTTP/transport
error, or a 2xx response with its parsed JSON body (`none` when `json()`
throws), `Link` header, status and meta. -/
inductive PageClientResult
  | httpErr (error : GitHubErrorInfo)
  | httpOk (events : Option (List GitHubEvent)) (linkHeader : Option String) (status : ℕ)
      (meta : GitHubResponseMeta)
deriving DecidableEq, Repr

/-- Result type of `fetchEventsPage`. -/
inductive PageResult
  | ok (events : List GitHubEvent) (nextUrl : Option String)
  | err (error : GitHubErrorInfo)
deriving DecidableEq, Repr

/-- fetchEventsPage from `events.ts`: the 422 "pagination is limited for this
resource" validation error is a clean end of pagination; any other client
error is returned as an error; a 2xx body that fails to parse is an `unknown`
error. The threaded `RateLimitInfo` is updated from the error or the meta. -/
def fetchEventsPage (result : PageClientResult) (rateLimit : RateLimitInfo) :
    PageResult × RateLimitInfo :=
  match result with
  | .httpErr e =>
    let rateLimit := updateRateLimitFromError rateLimit e
    if e.status = some 422 ∧
        (match e.message with
         | some m => strContainsSub m "pagination is limited for this resource"
         | none => false) = true then
      (.ok [] none, rateLimit)
    else (.err e, rateLimit)
  | .httpOk events linkHeader status meta =>
    let rateLimit := updateRateLimitFromMeta rateLimit meta
    match events with
    | some evs => (.ok evs (parseNextLink linkHeader), rateLimit)
    | none =>
      (.err { kind := .unknown, status := some status, message := some "Invalid JSON response"
              requestId := meta.requestId }, rateLimit)

/-! ### Enrichment resolvers (`fetchRepoForkStatus`, `fetchPullRequest`) -/

/-- RepoApiResponse from `events.ts`. -/
structure RepoApiResponse where
  fork : Option Bool := none
deriving DecidableEq, Repr

/-- PullRequestApiResponse from `events.ts` (`merged_at: string | null` and an
absent field are both `none`, since the source only tests `!= null`). -/
structure PullRequestApiResponse where
  html_url : Option String := none
  title : Option String := none
  body : Option String := none
  merged_at : Option String := none
deriving DecidableEq, Repr

/-- PullRequestMemoEntry from `events.ts`. -/
inductive PullRequestMemoEntry
  | entry (pr : PullRequestApiResponse)
  | nullEntry
  | errorEntry (e : GitHubErrorInfo)
deriving DecidableEq, Repr

/-- Result of one `fetchGitHubJson` call, as the environment presents it. -/
inductive GitHubJsonResult (α : Type)
  | ok (data : α) (meta : GitHubResponseMeta)
  | err (error : GitHubErrorInfo)
deriving DecidableEq, Repr

/-- The environment of one aggregation run: for each URL, what the network
(`page`, `repoFetch`, `prFetch`) and the shared edge cache (`repoCache`,
`prCache`, the `readCachedJson` results) would answer. Cache reads are stable
within one run because the in-run memo tables shadow every URL after its
first resolution. -/
structure AggEnv where
  page : String → PageClientResult
  repoCache : String → Option RepoApiResponse
  repoFetch : String → GitHubJsonResult RepoApiResponse
  prCache : String → Option PullRequestApiResponse
  prFetch : String → GitHubJsonResult PullRequestApiResponse

/-- The state touched by `fetchRepoForkStatus`: the fork memo, the rate-limit
info, and the ghost failure trace. -/
structure ForkState where
  forkMemo : List (String × Bool) := []
  rateLimit : RateLimitInfo := {}
  failures : List RunFailure := []
deriving DecidableEq, Repr

/-- fetchRepoForkStatus from `events.ts`: memo, then shared cache, then a
network fetch; a failed fetch is absorbed fail-open as "not a fork" (and is
recorded only in the ghost failure trace — the error tracker is untouched). -/
def fetchRepoForkStatus (env : AggEnv) (repoApiUrl : String) (fs : ForkState) :
    Bool × ForkState :=
  match List.lookup repoApiUrl fs.forkMemo with
  | some cached => (cached, fs)
  | none =>
    match env.repoCache repoApiUrl with
    | some cachedJson =>
      let isFork := cachedJson.fork == some true
      (isFork, { fs with forkMemo := fs.forkMemo ++ [(repoApiUrl, isFork)] })
    | none =>
      match env.repoFetch repoApiUrl with
      | .err e =>
        (false, { fs with rateLimit := updateRateLimitFromError fs.rateLimit e
                          forkMemo := fs.forkMemo ++ [(repoApiUrl, false)]
                          failures := fs.failures ++ [.forkFetch e] })
      | .ok data meta =>
        let isFork := data.fork == some true
        (isFork, { fs with rateLimit := updateRateLimitFromMeta fs.rateLimit meta
                           forkMemo := fs.forkMemo ++ [(repoApiUrl, isFork)] })

/-- The state touched by `fetchPullRequest` and `normalizeEvent`: the
pull-request memo, the rate-limit info, the error tracker and the ghost
failure trace. -/
structure NormState where
  prMemo : List (String × PullRequestMemoEntry) := []
  rateLimit : RateLimitInfo := {}
  tracker : ErrorTracker := {}
  failures : List RunFailure := []
deriving DecidableEq, Repr

/-- fetchPullRequest from `events.ts`: memo, then shared cache, then a network
fetch; a failed fetch is memoized as an error entry and returned (the caller
decides whether to record it on the tracker). -/
def fetchPullRequest (env : AggEnv) (prApiUrl : String) (ns : NormState) :
    (Option PullRequestApiResponse × Option GitHubErrorInfo) × NormState :=
  match List.lookup prApiUrl ns.prMemo with
  | some (.errorEntry e) => ((none, some e), ns)
  | some (.entry pr) => ((some pr, none), ns)
  | some .nullEntry => ((none, none), ns)
  | none =>
    match env.prCache prApiUrl with
    | some cachedJson =>
      ((some cachedJson, none),
        { ns with prMemo := ns.prMemo ++ [(prApiUrl, .entry cachedJson)] })
    | none =>
      match env.prFetch prApiUrl with
      | .err e =>
        ((none, some e),
          { ns with rateLimit := updateRateLimitFromError ns.rateLimit e
                    prMemo := ns.prMemo ++ [(prApiUrl, .errorEntry e)]
                    failures := ns.failures ++ [.prFetch e] })
      | .ok data meta =>
        ((some data, none),
          { ns with rateLimit := updateRateLimitFromMeta ns.rateLimit meta
                    prMemo := ns.prMemo ++ [(prApiUrl, .entry data)] })

/-- The `const { pr, error } = await fetchPullRequest(...); ... else if
(error) recordPartial(...)` pattern shared by the three pull-request branches
of `normalizeEvent`. -/
def fetchPRWithTracking (env : AggEnv) (prApiUrl : String) (ns : NormState) :
    Option PullRequestApiResponse × NormState :=
  let (out, ns) := fetchPullRequest env prApiUrl ns
  match out with
  | (some pr, _) => (some pr, ns)
  | (none, some e) => (none, { ns with tracker := recordPartialErr ns.tracker e })
  | (none, none) => (none, ns)

/-! ### Payload extraction (`events.ts`) -/

/-- Result record of `extractPullRequestPayload`. -/
structure ExtractedPR where
  title : Option String := none
  htmlUrl : Option String := none
  body : Option String := none
  merged : Option Bool := none
  apiUrl : Option String := none
deriving DecidableEq, Repr

/-- extractPullRequestPayload from `events.ts`. When the `merged` flag is
absent, a present `merged_at` field decides it (`merged_at != null`). -/
def extractPullRequestPayload (pr : Option PullRequestPayload) : ExtractedPR :=
  let title := (pr.bind (·.title)).map strTrim
  let htmlUrl := pr.bind (·.html_url)
  let body := pr.bind (·.body)
  let merged0 := pr.bind (·.merged)
  let merged :=
    match merged0, pr with
    | some m, _ => some m
    | none, some prv =>
      (match prv.merged_at with
       | some mergedAt => some mergedAt.isSome
       | none => none)
    | none, none => none
  let apiUrl := pr.bind (·.url)
  { title := title, htmlUrl := htmlUrl, body := body, merged := merged, apiUrl := apiUrl }

/-- resolvePullRequestApiUrl from `events.ts`. -/
def resolvePullRequestApiUrl (event : GitHubEvent) (payload : EventPayload) : Option String :=
  match payload.pull_request.bind (·.url) with
  | some u => some u
  | none =>
    match jsNullish (payload.pull_request.bind (·.number)) payload.number with
    | some prNumber =>
      some ("https://api.github.com/repos/" ++ event.repoName ++ "/pulls/" ++ toString prNumber)
    | none => none

/-- needsPullRequestFetch from `events.ts`: the pull-request API URL to
prefetch for an event, when its payload is missing data the normalizer will
want. -/
def needsPullRequestFetch (event : GitHubEvent) : Option String :=
  if event.type = "PullRequestEvent" then
    let p := event.payload
    if p.action ≠ some "opened" ∧ p.action ≠ some "closed" ∧ p.action ≠ some "reopened" then none
    else
      let prPayload := extractPullRequestPayload p.pull_request
      let needsTitle := !strTruthy prPayload.title
      let needsMerged := p.action == some "closed" && prPayload.merged == none
      if !needsTitle && !needsMerged then none
      else resolvePullRequestApiUrl event p
  else if event.type = "PullRequestReviewEvent" then
    let p := event.payload
    if p.action ≠ some "created" then none
    else
      let prPayload := extractPullRequestPayload p.pull_request
      if strTruthy prPayload.title then none
      else resolvePullRequestApiUrl event p
  else if event.type = "PullRequestReviewCommentEvent" then
    let p := event.payload
    if p.action ≠ some "created" then none
    else
      let prPayload := extractPullRequestPayload p.pull_request
      if strTruthy prPayload.title then none
      else resolvePullRequestApiUrl event p
  else none

/-! ### Normalization (`normalizeEvent`, `normalizeEventPreview`) -/

/-- The `actor` record built at the top of both normalizers. -/
def eventActor (event : GitHubEvent) : ActivityActor :=
  { login := event.actorLogin, url := userHtmlUrl event.actorLogin
    avatarUrl := event.actorAvatarUrl }

/-- The `repo` record built at the top of both normalizers. -/
def eventRepo (event : GitHubEvent) : ActivityRepo :=
  { name := event.repoName, url := repoHtmlUrl event.repoName }

/-- The IssuesEvent branch, shared verbatim by `normalizeEvent` and
`normalizeEventPreview`. -/
def normalizeIssuesEvent (event : GitHubEvent) : Option ActivityItem :=
  let p := event.payload
  if p.action ≠ some "opened" then none
  else
    let title := p.issue_title.map strTrim
    let url := p.issue_html_url
    if !strTruthy title || !strTruthy url then none
    else
      some { id := event.id, kind := .issue_opened, createdAt := event.created_at
             actor := eventActor event, repo := eventRepo event
             title := title.getD "", url := url.getD ""
             summary := summarizeText p.issue_body }

/-- The IssueCommentEvent branch, shared verbatim by `normalizeEvent` and
`normalizeEventPreview`. -/
def normalizeIssueCommentEvent (event : GitHubEvent) : Option ActivityItem :=
  let p := event.payload
  if p.action ≠ some "created" then none
  else
    let title := p.issue_title.map strTrim
    let url := p.comment_html_url
    if !strTruthy title || !strTruthy url then none
    else
      some { id := event.id, kind := .issue_or_pr_comment, createdAt := event.created_at
             actor := eventActor event, repo := eventRepo event
             title := title.getD "", url := url.getD ""
             summary := summarizeText p.comment_body }

/-- The ReleaseEvent branch, shared verbatim by `normalizeEvent` and
`normalizeEventPreview`. -/
def normalizeReleaseEvent (event : GitHubEvent) : Option ActivityItem :=
  let p := event.payload
  if p.action ≠ some "published" then none
  else
    let titleRaw := jsOrTruthy (p.release_name.map strTrim) (p.release_tag_name.map strTrim)
    let url := p.release_html_url
    if !strTruthy titleRaw || !strTruthy url then none
    else
      some { id := event.id, kind := .release_published, createdAt := event.created_at
             actor := eventActor event, repo := eventRepo event
             title := titleRaw.getD "", url := url.getD ""
             summary := summarizeText p.release_body }

/-- The PullRequestEvent branch of `normalizeEvent` (`events.ts`, full
pipeline): payload data first, then the pull-request detail fetch when the
title is missing or a closed event lacks the merged flag, then synthesized
title/permalink fallbacks. -/
def normalizePullRequestEvent (env : AggEnv) (event : GitHubEvent) (ns : NormState) :
    Option ActivityItem × NormState :=
  let p := event.payload
  if p.action ≠ some "opened" ∧ p.action ≠ some "closed" ∧ p.action ≠ some "reopened" then
    (none, ns)
  else
    let prPayload := extractPullRequestPayload p.pull_request
    let prApiUrl := resolvePullRequestApiUrl event p
    let prNumber := jsNullish (p.pull_request.bind (·.number)) p.number
    let title0 := prPayload.title
    let url0 := prPayload.htmlUrl
    let summary0 := summarizeText prPayload.body
    let merged0 := prPayload.merged
    let needsFetch := !strTruthy title0 || (p.action == some "closed" && merged0 == none)
    let fetched :=
      match needsFetch, prApiUrl with
      | true, some u => fetchPRWithTracking env u ns
      | _, _ => (none, ns)
    let prOpt := fetched.1
    let ns1 := fetched.2
    let title1 := match prOpt with
      | some pr => jsNullish title0 (pr.title.map strTrim)
      | none => title0
    let url1 := match prOpt with
      | some pr => jsNullish url0 pr.html_url
      | none => url0
    let summary1 := match prOpt with
      | some pr => jsNullish summary0 (summarizeText pr.body)
      | none => summary0
    let merged1 := match prOpt with
      | some pr => (match merged0 with | some m => some m | none => some pr.merged_at.isSome)
      | none => merged0
    let kind :=
      if p.action = some "opened" then ActivityKind.pull_request_opened
      else if p.action = some "reopened" then ActivityKind.pull_request_reopened
      else if merged1 = some true then ActivityKind.pull_request_merged
      else ActivityKind.pull_request_closed
    let url2 :=
      if !strTruthy url1 then
        match prNumber with
        | some n => some (pullRequestHtmlUrl event.repoName n)
        | none => url1
      else url1
    let title2 :=
      if !strTruthy title1 then
        let suffix := match prNumber with | some n => " #" ++ toString n | none => ""
        some (if kind = ActivityKind.pull_request_merged then "Merged pull request" ++ suffix
              else if p.action = some "opened" then "Opened pull request" ++ suffix
              else if p.action = some "reopened" then "Reopened pull request" ++ suffix
              else if p.action = some "closed" then "Closed pull request" ++ suffix
              else "Pull request" ++ suffix)
      else title1
    ((if !strTruthy url2 then none
       else
         some { id := event.id, kind := kind, createdAt := event.created_at
                actor := eventActor event, repo := eventRepo event
                title := title2.getD "", url := url2.getD "", summary := summary1 }), ns1)

/-- The PullRequestReviewEvent branch of `normalizeEvent` (full pipeline).
A review with state `commented` and no summary is dropped as upstream noise. -/
def normalizePullRequestReviewEvent (env : AggEnv) (event : GitHubEvent) (ns : NormState) :
    Option ActivityItem × NormState :=
  let p := event.payload
  if p.action ≠ some "created" then (none, ns)
  else
    let prPayload := extractPullRequestPayload p.pull_request
    let prApiUrl := resolvePullRequestApiUrl event p
    let prNumber := p.pull_request.bind (·.number)
    let title0 := prPayload.title
    let url0 := jsNullish p.review_html_url prPayload.htmlUrl
    let fetched :=
      match !strTruthy title0, prApiUrl with
      | true, some u => fetchPRWithTracking env u ns
      | _, _ => (none, ns)
    let prOpt := fetched.1
    let ns1 := fetched.2
    let title1 := match prOpt with
      | some pr => pr.title.map strTrim
      | none => title0
    let url1 := match prOpt with
      | some pr => jsNullish url0 pr.html_url
      | none => url0
    let url2 :=
      if !strTruthy url1 then
        match prNumber with
        | some n => some (pullRequestHtmlUrl event.repoName n)
        | none => url1
      else url1
    let title2 :=
      if !strTruthy title1 then
        some ("Review on pull request" ++
          (match prNumber with | some n => " #" ++ toString n | none => ""))
      else title1
    let reviewState := reviewStateFromGitHub p.review_state
    let summary := summarizeText p.review_body
    ((if !strTruthy url2 then none
       else if reviewState = .commented ∧ summary = none then none
       else
         some { id := event.id, kind := .pull_request_review, createdAt := event.created_at
                actor := eventActor event, repo := eventRepo event
                title := title2.getD "", url := url2.getD ""
                reviewState := some reviewState, summary := summary }), ns1)

/-- The PullRequestReviewCommentEvent branch of `normalizeEvent` (full
pipeline). -/
def normalizePullRequestReviewCommentEvent (env : AggEnv) (event : GitHubEvent)
    (ns : NormState) : Option ActivityItem × NormState :=
  let p := event.payload
  if p.action ≠ some "created" then (none, ns)
  else
    let prPayload := extractPullRequestPayload p.pull_request
    let prApiUrl := resolvePullRequestApiUrl event p
    let prNumber := p.pull_request.bind (·.number)
    let title0 := prPayload.title
    let url0 := jsNullish p.comment_html_url prPayload.htmlUrl
    let fetched :=
      match !strTruthy title0, prApiUrl with
      | true, some u => fetchPRWithTracking env u ns
      | _, _ => (none, ns)
    let prOpt := fetched.1
    let ns1 := fetched.2
    let title1 := match prOpt with
      | some pr => pr.title.map strTrim
      | none => title0
    let url2 :=
      if !strTruthy url0 then
        match prNumber with
        | some n => some (pullRequestHtmlUrl event.repoName n)
        | none => url0
      else url0
    let title2 :=
      if !strTruthy title1 then
        some ("Review comment on pull request" ++
          (match prNumber with | some n => " #" ++ toString n | none => ""))
      else title1
    ((if !strTruthy url2 then none
       else
         some { id := event.id, kind := .pull_request_review_comment
                createdAt := event.created_at
                actor := eventActor event, repo := eventRepo event
                title := title2.getD "", url := url2.getD ""
                summary := summarizeText p.comment_body }), ns1)

/-- normalizeEvent from `events.ts` (full pipeline): dispatch on the event
type; unsupported types yield no item and leave the state unchanged. -/
def normalizeEvent (env : AggEnv) (event : GitHubEvent) (ns : NormState) :
    Option ActivityItem × NormState :=
  if event.type = "IssuesEvent" then (normalizeIssuesEvent event, ns)
  else if event.type = "PullRequestEvent" then normalizePullRequestEvent env event ns
  else if event.type = "IssueCommentEvent" then (normalizeIssueCommentEvent event, ns)
  else if event.type = "PullRequestReviewEvent" then
    normalizePullRequestReviewEvent env event ns
  else if event.type = "PullRequestReviewCommentEvent" then
    normalizePullRequestReviewCommentEvent env event ns
  else if event.type = "ReleaseEvent" then (normalizeReleaseEvent event, ns)
  else (none, ns)

/-- The PullRequestEvent branch of `normalizeEventPreview` (payload-only:
always synthesizes title and permalink from the pull-request number). -/
def normalizePullRequestEventPreview (event : GitHubEvent) : Option ActivityItem :=
  let p := event.payload
  if p.action ≠ some "opened" ∧ p.action ≠ some "closed" ∧ p.action ≠ some "reopened" then none
  else
    match jsNullish (p.pull_request.bind (·.number)) p.number with
    | none => none
    | some prNumber =>
      let title :=
        if p.action = some "opened" then "Opened pull request #" ++ toString prNumber
        else if p.action = some "reopened" then "Reopened pull request #" ++ toString prNumber
        else "Closed pull request #" ++ toString prNumber
      some { id := event.id
             kind :=
               if p.action = some "opened" then .pull_request_opened
               else if p.action = some "reopened" then .pull_request_reopened
               else .pull_request_closed
             createdAt := event.created_at
             actor := eventActor event, repo := eventRepo event
             title := title, url := pullRequestHtmlUrl event.repoName prNumber }

/-- The PullRequestReviewEvent branch of `normalizeEventPreview`. -/
def normalizePullRequestReviewEventPreview (event : GitHubEvent) : Option ActivityItem :=
  let p := event.payload
  if p.action ≠ some "created" then none
  else
    match p.pull_request.bind (·.number) with
    | none => none
    | some prNumber =>
      let reviewState := reviewStateFromGitHub p.review_state
      let summary := summarizeText p.review_body
      if reviewState = .commented ∧ summary = none then none
      else
        some { id := event.id, kind := .pull_request_review, createdAt := event.created_at
               actor := eventActor event, repo := eventRepo event
               title := "Review on pull request #" ++ toString prNumber
               url := (jsNullish p.review_html_url
                 (some (pullRequestHtmlUrl event.repoName prNumber))).getD ""
               reviewState := some reviewState, summary := summary }

/-- The PullRequestReviewCommentEvent branch of `normalizeEventPreview`. -/
def normalizePullRequestReviewCommentEventPreview (event : GitHubEvent) :
    Option ActivityItem :=
  let p := event.payload
  if p.action ≠ some "created" then none
  else
    let prNumber := p.pull_request.bind (·.number)
    let url := p.comment_html_url
    match prNumber with
    | none => none
    | some n =>
      if !strTruthy url then none
      else
        some { id := event.id, kind := .pull_request_review_comment
               createdAt := event.created_at
               actor := eventActor event, repo := eventRepo event
               title := "Review comment on pull request #" ++ toString n
               url := url.getD "", summary := summarizeText p.comment_body }

/-- normalizeEventPreview from `events.ts`: the payload-only normalizer used
by the preview endpoint. -/
def normalizeEventPreview (event : GitHubEvent) : Option ActivityItem :=
  if event.type = "IssuesEvent" then normalizeIssuesEvent event
  else if event.type = "PullRequestEvent" then normalizePullRequestEventPreview event
  else if event.type = "IssueCommentEvent" then normalizeIssueCommentEvent event
  else if event.type = "PullRequestReviewEvent" then
    normalizePullRequestReviewEventPreview event
  else if event.type = "PullRequestReviewCommentEvent" then
    normalizePullRequestReviewCommentEventPreview event
  else if event.type = "ReleaseEvent" then normalizeReleaseEvent event
  else none

/-! ### Aggregation (`getRecentActivity`, `getRecentActivityPreview`) -/

/-- Options of `getRecentActivity` from `events.ts`. -/
structure AggOptions where
  username : String
  limit : ℤ
  perPage : Option ℤ := none
  maxPages : Option ℤ := none
deriving DecidableEq, Repr

/-- Options of `getRecentActivityPreview` from `events.ts`. -/
structure PreviewOptions where
  username : String
  limit : ℤ
  perPage : Option ℤ := none
deriving DecidableEq, Repr

/-- The clamp `Math.max(1, Math.min(100, options.limit))` from `events.ts`. -/
def clampLimit (l : ℤ) : ℤ := max 1 (min 100 l)

/-- The clamp `Math.max(1, Math.min(100, perPage ?? 100))` from `events.ts`. -/
def clampPerPage (p : Option ℤ) : ℤ := max 1 (min 100 (p.getD 100))

/-- The clamp `Math.max(1, Math.min(10, maxPages ?? 5))` from `events.ts`. -/
def clampMaxPages (m : Option ℤ) : ℤ := max 1 (min 10 (m.getD 5))

/-- The first events-page URL built by both entry points
(`https://api.github.com/users/USERNAME/events/public?per_page=P&page=1`). -/
def firstPageUrl (username : String) (perPage : ℤ) : String :=
  "https://api.github.com/users/" ++ username ++ "/events/public?per_page=" ++
    toString perPage ++ "&page=1"

/-- The whole mutable state of one `getRecentActivity` run, plus ghost trace
fields (`failures`, `produced`, `processedEvents`, `pagesFetched`) that only
record what happened. -/
structure AggState where
  items : List ActivityItem := []
  seenUrls : List String := []
  forkMemo : List (String × Bool) := []
  prMemo : List (String × PullRequestMemoEntry) := []
  tracker : ErrorTracker := {}
  rateLimit : RateLimitInfo := {}
  failures : List RunFailure := []
  produced : List ActivityItem := []
  processedEvents : List GitHubEvent := []
  pagesFetched : ℕ := 0
deriving DecidableEq, Repr

/-- Projection of the aggregation state to what `fetchRepoForkStatus` touches. -/
def AggState.toFork (st : AggState) : ForkState :=
  { forkMemo := st.forkMemo, rateLimit := st.rateLimit, failures := st.failures }

/-- Write back the state touched by `fetchRepoForkStatus`. -/
def AggState.withFork (st : AggState) (fs : ForkState) : AggState :=
  { st with forkMemo := fs.forkMemo, rateLimit := fs.rateLimit, failures := fs.failures }

/-- Projection of the aggregation state to what `normalizeEvent` touches. -/
def AggState.toNorm (st : AggState) : NormState :=
  { prMemo := st.prMemo, rateLimit := st.rateLimit, tracker := st.tracker
    failures := st.failures }

/-- Write back the state touched by `normalizeEvent`. -/
def AggState.withNorm (st : AggState) (ns : NormState) : AggState :=
  { st with prMemo := ns.prMemo, rateLimit := ns.rateLimit, tracker := ns.tracker
            failures := ns.failures }

/-- Insertion-ordered deduplication: `Array.from(new Set(list))`. -/
def dedupStringsAux (seen : List String) : List String → List String
  | [] => []
  | s :: rest =>
    if seen.contains s then dedupStringsAux seen rest
    else s :: dedupStringsAux (s :: seen) rest

/-- Insertion-ordered deduplication: `Array.from(new Set(list))`. -/
def dedupStrings (l : List String) : List String := dedupStringsAux [] l

/-- The fork-status prefetch of one page: `Promise.all(repoUrls.map(...))`.
Each `fetchRepoForkStatus` call is deterministic per URL and memoized, so the
parallel prefetch is modelled sequentially in array order. -/
def prefetchForks (env : AggEnv) : List String → AggState → AggState
  | [], st => st
  | u :: rest, st => prefetchForks env rest (st.withFork (fetchRepoForkStatus env u st.toFork).2)

/-- The pull-request prefetch of one page: `Promise.all(prApiUrls.map(...))`,
modelled sequentially in insertion order for the same reason. -/
def prefetchPRs (env : AggEnv) : List String → AggState → AggState
  | [], st => st
  | u :: rest, st => prefetchPRs env rest (st.withNorm (fetchPullRequest env u st.toNorm).2)

/-- The fork filter of one page:
`events.filter((event) => !forkMemo.get(event.repo.url))`. -/
def pageCandidates (memo : List (String × Bool)) (events : List GitHubEvent) :
    List GitHubEvent :=
  events.filter (fun ev => !((List.lookup ev.repoUrl memo).getD false))

/-- The per-page collection loop of `getRecentActivity`: normalize each
candidate, skip null items and urls already seen, push, and stop once `limit`
items are collected. The ghost fields `processedEvents` and `produced` record
every candidate the loop reached and every non-null normalized item. -/
def collectEvents (env : AggEnv) (limit : ℤ) : List GitHubEvent → AggState → AggState
  | [], st => st
  | ev :: rest, st =>
    let st := { st with processedEvents := st.processedEvents ++ [ev] }
    let normed := normalizeEvent env ev st.toNorm
    let st := st.withNorm normed.2
    match normed.1 with
    | none => collectEvents env limit rest st
    | some item =>
      let st := { st with produced := st.produced ++ [item] }
      if st.seenUrls.contains item.url then collectEvents env limit rest st
      else
        let st := { st with seenUrls := st.seenUrls ++ [item.url], items := st.items ++ [item] }
        if limit ≤ (st.items.length : ℤ) then st
        else collectEvents env limit rest st

/-- The page loop of `getRecentActivity` (`while (nextUrl && pageCount <
maxPages)`). The fuel is `maxPages - pageCount`. A page fetch failure aborts
the run when nothing has been collected yet, and otherwise records a partial
response and stops; an empty page or a missing next link stops cleanly. -/
def aggLoop (env : AggEnv) (limit : ℤ) : ℕ → Option String → AggState →
    Except GitHubErrorInfo AggState
  | 0, _, st => .ok st
  | _ + 1, none, st => .ok st
  | fuel + 1, some url, st =>
    let fetched := fetchEventsPage (env.page url) st.rateLimit
    let st := { st with rateLimit := fetched.2, pagesFetched := st.pagesFetched + 1 }
    match fetched.1 with
    | .err e =>
      if 0 < st.items.length then
        .ok { st with tracker := recordPartialErr st.tracker e
                      failures := st.failures ++ [.pageFetch e] }
      else .error e
    | .ok events next =>
      if events.isEmpty then .ok st
      else
        let repoUrls := dedupStrings (events.map (·.repoUrl))
        let st := prefetchForks env repoUrls st
        let candidates := pageCandidates st.forkMemo events
        let prUrls := dedupStrings (candidates.filterMap needsPullRequestFetch)
        let st := prefetchPRs env prUrls st
        let st := collectEvents env limit candidates st
        if limit ≤ (st.items.length : ℤ) then .ok st
        else aggLoop env limit fuel next st

/-- The aggregation run of `getRecentActivity` up to (but not including) the
final sort/truncate/response assembly: clamp the options, then run the page
loop from the first page URL and an empty state. -/
def runAggregation (env : AggEnv) (options : AggOptions) : Except GitHubErrorInfo AggState :=
  let limit := clampLimit options.limit
  let perPage := clampPerPage options.perPage
  let maxPages := clampMaxPages options.maxPages
  aggLoop env limit maxPages.toNat (some (firstPageUrl options.username perPage)) {}

/-- The response assembly of `getRecentActivity`: stable-sort the collected
items by descending `createdAt`, truncate to the clamped limit, and attach the
partial flag and first recorded error when the tracker was marked. -/
def buildResponse (username now : String) (limit : ℤ) (st : AggState) : ActivityFetchResult :=
  let sorted := st.items.insertionSort (fun a b => b.createdAt ≤ a.createdAt)
  { data :=
      { username := username
        generatedAt := now
        items := sorted.take limit.toNat
        isPartial := if st.tracker.isPartial then some true else none
        errorInfo := if st.tracker.isPartial then st.tracker.errorInfo else none }
    rateLimit := compactRateLimit st.rateLimit }

/-- getRecentActivity from `events.ts`, as a function of the environment; the
`generatedAt` instant (`new Date().toISOString()`) is the parameter `now`. A
thrown `GitHubRequestError` is the `Except.error` case. -/
def getRecentActivity (env : AggEnv) (options : AggOptions) (now : String) :
    Except GitHubErrorInfo ActivityFetchResult :=
  (runAggregation env options).map (buildResponse options.username now (clampLimit options.limit))

/-- The collection loop of `getRecentActivityPreview`: like the full one but
with the pure payload-only normalizer and no enrichment state. -/
def previewCollect (limit : ℤ) : List GitHubEvent → List ActivityItem → List String →
    List ActivityItem
  | [], items, _ => items
  | ev :: rest, items, seen =>
    match normalizeEventPreview ev with
    | none => previewCollect limit rest items seen
    | some item =>
      if seen.contains item.url then previewCollect limit rest items seen
      else
        let seen := seen ++ [item.url]
        let items := items ++ [item]
        if limit ≤ (items.length : ℤ) then items
        else previewCollect limit rest items seen

/-- getRecentActivityPreview from `events.ts`: clamp, fetch a single page
(failures propagate), collect with dedup and limit, truncate. -/
def getRecentActivityPreview (env : AggEnv) (options : PreviewOptions) (now : String) :
    Except GitHubErrorInfo ActivityFetchResult :=
  let limit := clampLimit options.limit
  let perPage := clampPerPage options.perPage
  let fetched := fetchEventsPage (env.page (firstPageUrl options.username perPage)) {}
  match fetched.1 with
  | .err e => .error e
  | .ok events _next =>
    let items := previewCollect limit events [] []
    .ok { data :=
            { username := options.username
              generatedAt := now
              items := items.take limit.toNat }
          rateLimit := compactRateLimit fetched.2 }

/-! ### Specification predicates -/

/-- The "pagination is limited for this resource" special case of
`fetchEventsPage`: a 422 whose message carries the known substring. -/
def isPaginationLimitedError (e : GitHubErrorInfo) : Prop :=
  e.status = some 422 ∧
    (match e.message with
     | some m => strContainsSub m "pagination is limited for this resource"
     | none => false) = true

/-- Invariant of the error tracker: the stored error is the first recorded
cause, and the flag is set exactly when some cause was recorded. -/
def TrackerInv (t : ErrorTracker) : Prop :=
  t.errorInfo = t.causes.head? ∧ (t.isPartial = true ↔ t.causes ≠ [])

/-- Invariant of the normalization state: the tracker invariant, every
recorded cause corresponds to a traced page-fetch or pull-request-fetch
failure, and every memoized pull-request error was traced when it happened. -/
def NormInv (ns : NormState) : Prop :=
  TrackerInv ns.tracker
  ∧ (∀ e ∈ ns.tracker.causes,
      RunFailure.pageFetch e ∈ ns.failures ∨ RunFailure.prFetch e ∈ ns.failures)
  ∧ (∀ u e, List.lookup u ns.prMemo = some (.errorEntry e) →
      RunFailure.prFetch e ∈ ns.failures)

/-- How one normalization step may evolve the normalization state: failures
only grow, and only by pull-request-fetch failures; the partial flag is never
cleared; the invariant is preserved. -/
def NormEvolves (ns ns' : NormState) : Prop :=
  (∃ l, ns'.failures = ns.failures ++ l ∧ ∀ f ∈ l, ∃ e, f = RunFailure.prFetch e)
  ∧ (ns.tracker.isPartial = true → ns'.tracker.isPartial = true)
  ∧ (NormInv ns → NormInv ns')

/-- How one fork-status resolution may evolve the fork state: failures only
grow, and only by fork-fetch failures; existing memo entries are preserved. -/
def ForkEvolves (fs fs' : ForkState) : Prop :=
  (∃ l, fs'.failures = fs.failures ++ l ∧ ∀ f ∈ l, ∃ e, f = RunFailure.forkFetch e)
  ∧ (∀ k v, List.lookup k fs.forkMemo = some v → List.lookup k fs'.forkMemo = some v)

/-- The run invariant of the aggregation state, established at the empty
initial state and preserved by the page loop:
* the normalization-state invariant and the page-failure/partial link;
* seen urls are exactly the urls of the collected items, without duplicates;
* every collected item is the first produced item carrying its url;
* every produced url was marked seen;
* every produced item stems from a processed event (same id and repo);
* every processed event's repository resolved as "not a fork". -/
def AggInv (st : AggState) : Prop :=
  NormInv st.toNorm
  ∧ (∀ e, RunFailure.pageFetch e ∈ st.failures → st.tracker.isPartial = true)
  ∧ st.seenUrls = st.items.map (·.url)
  ∧ (st.items.map (·.url)).Nodup
  ∧ (∀ it ∈ st.items, st.produced.find? (fun j => j.url == it.url) = some it)
  ∧ (∀ p ∈ st.produced, p.url ∈ st.seenUrls)
  ∧ (∀ it ∈ st.produced, ∃ ev, ev ∈ st.processedEvents ∧ it.id = ev.id ∧
      it.repo = eventRepo ev)
  ∧ (∀ ev ∈ st.processedEvents, List.lookup ev.repoUrl st.forkMemo = some false)

/-! ### Concrete fixtures for witnesses and counterexamples -/


/-- Fixture: a pagination-limited 422 error. -/
def pagLimitedFix : GitHubErrorInfo :=
  { kind := .validation, status := some 422
    message := some "pagination is limited for this resource; see docs" }

/-- Fixture: a plain 404 error. -/
def notFoundFix : GitHubErrorInfo := { kind := .not_found, status := some 404 }


/-- Fixture: a clean IssuesEvent. -/
def fixEvIssue : GitHubEvent :=
  { id := "1", type := "IssuesEvent"
    actorLogin := "alice", actorUrl := "https://api.github.com/users/alice"
    actorAvatarUrl := "https://avatars.example/alice"
    repoName := "acme/widget", repoUrl := "https://api.github.com/repos/acme/widget"
    payload := { action := some "opened", issue_title := some "Fix bug"
                 issue_html_url := some "https://github.com/acme/widget/issues/1" }
    created_at := 100 }

/-- Fixture: a PushEvent (unsupported type, dropped by the normalizer). -/
def fixEvPush : GitHubEvent :=
  { fixEvIssue with id := "2", type := "PushEvent", created_at := 90 }

/-- Fixture: a PullRequestEvent whose trimmed payload needs a detail fetch. -/
def fixEvPR : GitHubEvent :=
  { fixEvIssue with
    id := "3"
    type := "PullRequestEvent"
    created_at := 80
    payload := { action := some "opened", pull_request := some { number := some 7 } } }

/-- Fixture: an environment with one events page and a non-fork repository. -/
def fixEnvOk : AggEnv :=
  { page := fun _ => .httpOk (some [fixEvIssue, fixEvPush]) none 200 {}
    repoCache := fun _ => none
    repoFetch := fun _ => .ok { fork := some false } {}
    prCache := fun _ => none
    prFetch := fun _ => .err { kind := .unknown } }

/-- Fixture: aggregation options with limit 20. -/
def fixOpts : AggOptions := { username := "alice", limit := 20 }

/-- Fixture: aggregation options with limit 1. -/
def fixOptsOne : AggOptions := { username := "alice", limit := 1 }

/-- Fixture: preview options with limit 20. -/
def fixPrevOpts : PreviewOptions := { username := "alice", limit := 20 }

/-- Fixture: an environment whose page fetch always fails with a 404. -/
def fixEnvErr : AggEnv := { fixEnvOk with page := fun _ => .httpErr notFoundFix }

/-- Fixture: a collected activity item. -/
def fixItem : ActivityItem :=
  { id := "1", kind := .issue_opened, createdAt := 100
    actor := eventActor fixEvIssue, repo := eventRepo fixEvIssue
    title := "Fix bug", url := "https://github.com/acme/widget/issues/1" }

/-- Fixture: a state that already collected one item. -/
def fixStOne : AggState := { items := [fixItem], seenUrls := [fixItem.url] }

/-- Fixture: a network error. -/
def netErrFix : GitHubErrorInfo := { kind := .network }

/-- Fixture: an environment where the fork lookup fails (absorbed fail-open). -/
def fixEnvForkErr : AggEnv := { fixEnvOk with repoFetch := fun _ => .err netErrFix }

/-- Fixture: an environment where a pull-request prefetch fails; with limit 1
the failing event is never normalized. -/
def fixEnvPRErr : AggEnv :=
  { fixEnvOk with
    page := fun _ => .httpOk (some [fixEvIssue, fixEvPR]) none 200 {}
    prFetch := fun _ => .err netErrFix }

/-- Extract the ok state of a run (empty state on error). -/
def runStateOr (x : Except GitHubErrorInfo AggState) : AggState :=
  match x with
  | .ok st => st
  | .error _ => {}

/-- Extract the ok result of a fetch (empty result on error). -/
def fetchResultOr (x : Except GitHubErrorInfo ActivityFetchResult) : ActivityFetchResult :=
  match x with
  | .error _ => { data := { username := "", generatedAt := "", items := [] } }
  | .ok r => r

/-! FIXTURES_ANCHOR -/

/-! ### Helper lemmas -/


/-! ### C5, C6 — cache freshness classification -/

/-- C5: for every known age `a` and policy, `classifyAge` returns `fresh` iff
`a ≤ maxAge`, `stale` iff `maxAge < a ≤ maxAge + swr`, and `expired` iff
`a > maxAge + swr`; with the default policy (`maxAge = 60`, `swr = 300`), age
`60` classifies fresh, age `60.1` stale and age `360.1` expired. -/
theorem classifyAge_known_age_boundaries :
    (∀ (a : ℚ) (policy : CachePolicy), 0 ≤ policy.staleWhileRevalidateSeconds →
      (classifyAge (some a) policy = .fresh ↔ a ≤ policy.maxAgeSeconds)
      ∧ (classifyAge (some a) policy = .stale ↔
          (policy.maxAgeSeconds < a ∧
            a ≤ policy.maxAgeSeconds + policy.staleWhileRevalidateSeconds))
      ∧ (classifyAge (some a) policy = .expired ↔
          policy.maxAgeSeconds + policy.staleWhileRevalidateSeconds < a))
    ∧ DEFAULT_CACHE_POLICY = { maxAgeSeconds := 60, staleWhileRevalidateSeconds := 300 }
    ∧ classifyAge (some 60) DEFAULT_CACHE_POLICY = .fresh
    ∧ classifyAge (some (601 / 10)) DEFAULT_CACHE_POLICY = .stale
    ∧ classifyAge (some (3601 / 10)) DEFAULT_CACHE_POLICY = .expired := by
  refine ⟨fun a policy hswr => ?_, rfl, ?_, ?_, ?_⟩
  · simp only [classifyAge]
    split_ifs with h1 h2
    · refine ⟨iff_of_true rfl h1, iff_of_false (by decide) ?_, iff_of_false (by decide) ?_⟩
      · rintro ⟨h, _⟩; linarith
      · intro h; linarith
    · refine ⟨iff_of_false (by decide) h1, iff_of_true rfl ⟨not_le.mp h1, h2⟩,
        iff_of_false (by decide) ?_⟩
      intro h; linarith
    · refine ⟨iff_of_false (by decide) h1, iff_of_false (by decide) ?_,
        iff_of_true rfl (not_le.mp h2)⟩
      rintro ⟨_, h⟩; exact h2 h
  · simp only [classifyAge, DEFAULT_CACHE_POLICY]
    norm_num
  · simp only [classifyAge, DEFAULT_CACHE_POLICY]
    norm_num
  · simp only [classifyAge, DEFAULT_CACHE_POLICY]
    norm_num

/-- C6 counterexample: the code classifies an unknown (null) age as `stale`,
not `expired`. -/
theorem classifyAge_unknown_age_counterexample :
    classifyAge none DEFAULT_CACHE_POLICY = .stale ∧
    classifyAge none DEFAULT_CACHE_POLICY ≠ .expired :=
  ⟨rfl, by decide⟩

/-- C6 (amended): when the age of a cache entry is unknown (null), the
freshness classification returns `stale` for every policy. -/
theorem classifyAge_unknown_age_stale (policy : CachePolicy) :
    classifyAge none policy = .stale := rfl

/-! ### C7 — pagination-limited 422 is a clean end -/

/-- C7: a page fetch failing with HTTP 422 and the "pagination is limited for
this resource" message substring yields a successful empty page with no next
URL; every other client error of the page fetch is returned as an error. -/
theorem fetchEventsPage_pagination_limited_eof :
    ∀ (e : GitHubErrorInfo) (rateLimit : RateLimitInfo),
      (isPaginationLimitedError e →
        fetchEventsPage (.httpErr e) rateLimit =
          (.ok [] none, updateRateLimitFromError rateLimit e))
      ∧ (¬isPaginationLimitedError e →
        fetchEventsPage (.httpErr e) rateLimit =
          (.err e, updateRateLimitFromError rateLimit e)) := by
  intro e rl
  constructor
  · intro h
    simp only [isPaginationLimitedError] at h
    simp only [fetchEventsPage]
    rw [if_pos h]
  · intro h
    simp only [isPaginationLimitedError] at h
    simp only [fetchEventsPage]
    rw [if_neg h]

/-- Witness for C7 at concrete inputs. -/
theorem fetchEventsPage_pagination_limited_eof_witness :
    fetchEventsPage (.httpErr pagLimitedFix) {} =
      (.ok [] none, updateRateLimitFromError {} pagLimitedFix)
    ∧ fetchEventsPage (.httpErr notFoundFix) {} =
      (.err notFoundFix, updateRateLimitFromError {} notFoundFix) :=
  ⟨(fetchEventsPage_pagination_limited_eof pagLimitedFix {}).1 ⟨rfl, by decide⟩,
   (fetchEventsPage_pagination_limited_eof notFoundFix {}).2
     (by rintro ⟨h, -⟩; exact absurd h (by decide))⟩

/-- Witness for C5 at a concrete age and the default policy. -/
theorem classifyAge_known_age_boundaries_witness :
    (0 : ℚ) ≤ DEFAULT_CACHE_POLICY.staleWhileRevalidateSeconds ∧
    (classifyAge (some 50) DEFAULT_CACHE_POLICY = .fresh ↔
      (50 : ℚ) ≤ DEFAULT_CACHE_POLICY.maxAgeSeconds) :=
  ⟨by norm_num [DEFAULT_CACHE_POLICY],
   (classifyAge_known_age_boundaries.1 50 DEFAULT_CACHE_POLICY
     (by norm_num [DEFAULT_CACHE_POLICY])).1⟩

/-! ### C4 — client retry policy -/

/-- The retry loop makes at most `attempt + fuel` fetch calls when entered at
attempt index `attempt` with the given fuel. -/
theorem fetchLoop_calls_le (options : GitHubRequestOptions) (outcomes : ℕ → FetchOutcome)
    (jitters : ℕ → ℚ) (retries : ℕ) :
    ∀ (fuel attempt : ℕ),
      (fetchLoop options outcomes jitters retries fuel attempt).2 ≤ attempt + fuel := by
  intro fuel
  induction fuel with
  | zero => intro attempt; simp [fetchLoop]
  | succ n ih =>
    intro attempt
    simp only [fetchLoop]
    split
    · simp
    · split
      · split
        · exact le_trans (ih (attempt + 1)) (by omega)
        · simp
      · simp

/-- C4: exactly the error kinds network, timeout, server and rate_limit are
ever retried; the retry budget defaults to 2 additional attempts, so at most
`retries + 1` fetch calls are ever made; a non-retryable first error returns
immediately after a single call; an explicit `retryAfter` replaces the
exponential schedule by `retryAfter * 1000` ms, but when that exceeds the
ceiling (default 1000 ms) the client gives up immediately and returns the
error without retrying. -/
theorem fetchGitHubResponse_retry_policy :
    (∀ info : GitHubErrorInfo,
      shouldRetryError info = true ↔
        (info.kind = .network ∨ info.kind = .timeout ∨ info.kind = .server ∨
          info.kind = .rate_limit))
    ∧ DEFAULT_RETRIES = 2
    ∧ (∀ (options : GitHubRequestOptions) (outcomes : ℕ → FetchOutcome) (jitters : ℕ → ℚ),
        (fetchGitHubResponseModel options outcomes jitters).2 ≤
          options.retries.getD DEFAULT_RETRIES + 1)
    ∧ (∀ (options : GitHubRequestOptions) (outcomes : ℕ → FetchOutcome) (jitters : ℕ → ℚ)
        (info : GitHubErrorInfo),
        fetchAttemptResult (outcomes 0) = .inr info →
        shouldRetryError info = false →
        fetchGitHubResponseModel options outcomes jitters = (.err info, 1))
    ∧ (∀ (attempt : ℕ) (options : GitHubRequestOptions) (ra jitter : ℚ),
        computeBackoffMs attempt options (some ra) jitter =
          if ra * 1000 > options.retryMaxAfterMs.getD DEFAULT_RETRY_MAX_AFTER_MS then none
          else some (ra * 1000))
    ∧ (∀ (options : GitHubRequestOptions) (outcomes : ℕ → FetchOutcome) (jitters : ℕ → ℚ)
        (info : GitHubErrorInfo) (ra : ℚ),
        fetchAttemptResult (outcomes 0) = .inr info →
        info.retryAfter = some ra →
        ra * 1000 > options.retryMaxAfterMs.getD DEFAULT_RETRY_MAX_AFTER_MS →
        fetchGitHubResponseModel options outcomes jitters = (.err info, 1)) := by
  refine ⟨?_, rfl, ?_, ?_, ?_, ?_⟩
  · intro info
    cases h : info.kind <;> simp [shouldRetryError, h]
  · intro options outcomes jitters
    simp only [fetchGitHubResponseModel]
    simpa using
      fetchLoop_calls_le options outcomes jitters (options.retries.getD DEFAULT_RETRIES)
        (options.retries.getD DEFAULT_RETRIES + 1) 0
  · intro options outcomes jitters info h hsr
    simp only [fetchGitHubResponseModel, fetchLoop, h]
    rw [if_neg]
    rintro ⟨-, hr⟩
    rw [hsr] at hr
    exact Bool.false_ne_true hr
  · intro attempt options ra jitter
    rfl
  · intro options outcomes jitters info ra h hra hgt
    simp only [fetchGitHubResponseModel, fetchLoop, h, hra, computeBackoffMs]
    rw [if_pos hgt]
    split <;> rfl

/-- Witness for C4 at concrete inputs: a 404 returns immediately after one
call, and a rate-limited response carrying `retryAfter = 2` (2000 ms, above
the 1000 ms ceiling) gives up immediately after one call. -/
theorem fetchGitHubResponse_retry_policy_witness :
    fetchGitHubResponseModel {} (fun _ => .httpResponse 404 none none {}) (fun _ => 0) =
      (.err { kind := .not_found, status := some 404 }, 1)
    ∧ fetchGitHubResponseModel {} (fun _ => .httpResponse 429 none (some 2) {}) (fun _ => 0) =
      (.err { kind := .rate_limit, status := some 429, retryAfter := some 2 }, 1) :=
  ⟨fetchGitHubResponse_retry_policy.2.2.2.1 {} _ _ _ rfl rfl,
   fetchGitHubResponse_retry_policy.2.2.2.2.2 {} _ _ _ 2 rfl rfl
     (by simp [DEFAULT_RETRY_MAX_AFTER_MS])⟩

/-! ### State wiring lemmas -/

theorem withNorm_items (st : AggState) (ns : NormState) : (st.withNorm ns).items = st.items := rfl

theorem withNorm_seenUrls (st : AggState) (ns : NormState) :
    (st.withNorm ns).seenUrls = st.seenUrls := rfl

theorem withNorm_forkMemo (st : AggState) (ns : NormState) :
    (st.withNorm ns).forkMemo = st.forkMemo := rfl

theorem withNorm_produced (st : AggState) (ns : NormState) :
    (st.withNorm ns).produced = st.produced := rfl

theorem withNorm_processedEvents (st : AggState) (ns : NormState) :
    (st.withNorm ns).processedEvents = st.processedEvents := rfl

theorem withNorm_pagesFetched (st : AggState) (ns : NormState) :
    (st.withNorm ns).pagesFetched = st.pagesFetched := rfl

theorem withNorm_toNorm (st : AggState) (ns : NormState) : (st.withNorm ns).toNorm = ns := rfl

theorem withFork_items (st : AggState) (fs : ForkState) : (st.withFork fs).items = st.items := rfl

theorem withFork_seenUrls (st : AggState) (fs : ForkState) :
    (st.withFork fs).seenUrls = st.seenUrls := rfl

theorem withFork_prMemo (st : AggState) (fs : ForkState) :
    (st.withFork fs).prMemo = st.prMemo := rfl

theorem withFork_tracker (st : AggState) (fs : ForkState) :
    (st.withFork fs).tracker = st.tracker := rfl

theorem withFork_produced (st : AggState) (fs : ForkState) :
    (st.withFork fs).produced = st.produced := rfl

theorem withFork_processedEvents (st : AggState) (fs : ForkState) :
    (st.withFork fs).processedEvents = st.processedEvents := rfl

theorem withFork_pagesFetched (st : AggState) (fs : ForkState) :
    (st.withFork fs).pagesFetched = st.pagesFetched := rfl

theorem withFork_toFork (st : AggState) (fs : ForkState) : (st.withFork fs).toFork = fs := rfl

/-! ### Association list helpers -/

theorem lookup_append_of_some {α β : Type} [BEq α] [LawfulBEq α] {k : α} {v : β}
    {l l' : List (α × β)} (h : List.lookup k l = some v) :
    List.lookup k (l ++ l') = some v := by
  rw [List.lookup_append, h]; rfl

theorem lookup_append_singleton_self {α β : Type} [BEq α] [LawfulBEq α] {k : α} {v : β}
    {l : List (α × β)} (h : List.lookup k l = none) :
    List.lookup k (l ++ [(k, v)]) = some v := by
  rw [List.lookup_append, h]; simp

theorem lookup_append_singleton_cases {α β : Type} [BEq α] [LawfulBEq α] {k a : α} {v b : β}
    {l : List (α × β)} (h : List.lookup k (l ++ [(a, b)]) = some v) :
    List.lookup k l = some v ∨ (k = a ∧ v = b) := by
  rw [List.lookup_append] at h
  cases hl : List.lookup k l with
  | some w =>
    left
    rw [hl] at h
    simpa using h
  | none =>
    right
    rw [hl, Option.none_or, List.lookup_cons] at h
    split at h
    · rename_i hbeq
      exact ⟨eq_of_beq hbeq, by simpa using h.symm⟩
    · simp at h

/-! ### Tracker lemmas -/

theorem recordPartialErr_trackerInv {t : ErrorTracker} {e : GitHubErrorInfo}
    (h : TrackerInv t) : TrackerInv (recordPartialErr t e) := by
  obtain ⟨h1, _⟩ := h
  constructor
  · cases hc : t.causes with
    | nil => simp [recordPartialErr, h1, hc]
    | cons c cs => simp [recordPartialErr, h1, hc]
  · simp [recordPartialErr]

theorem recordPartialErr_causes (t : ErrorTracker) (e : GitHubErrorInfo) :
    (recordPartialErr t e).causes = t.causes ++ [e] := rfl

theorem recordPartialErr_isPartial (t : ErrorTracker) (e : GitHubErrorInfo) :
    (recordPartialErr t e).isPartial = true := rfl

/-! ### Evolution lemmas for the enrichment resolvers -/

theorem normEvolves_refl (ns : NormState) : NormEvolves ns ns :=
  ⟨⟨[], by simp, by simp⟩, id, id⟩

theorem normEvolves_trans {a b c : NormState} (h1 : NormEvolves a b) (h2 : NormEvolves b c) :
    NormEvolves a c := by
  obtain ⟨⟨l1, e1, p1⟩, t1, i1⟩ := h1
  obtain ⟨⟨l2, e2, p2⟩, t2, i2⟩ := h2
  exact ⟨⟨l1 ++ l2, by rw [e2, e1, List.append_assoc],
    fun f hf => (List.mem_append.mp hf).elim (p1 f) (p2 f)⟩,
    fun h => t2 (t1 h), fun h => i2 (i1 h)⟩

theorem fetchPullRequest_evolves (env : AggEnv) (u : String) (ns : NormState) :
    NormEvolves ns (fetchPullRequest env u ns).2
    ∧ (fetchPullRequest env u ns).2.tracker = ns.tracker
    ∧ (∀ e, (fetchPullRequest env u ns).1.2 = some e → NormInv ns →
        RunFailure.prFetch e ∈ (fetchPullRequest env u ns).2.failures) := by
  unfold fetchPullRequest
  split
  · rename_i e0 heq
    refine ⟨normEvolves_refl ns, rfl, ?_⟩
    intro e he hinv
    simp only [Option.some.injEq] at he
    subst he
    exact hinv.2.2 u e0 heq
  · exact ⟨normEvolves_refl ns, rfl, by intro e he; simp at he⟩
  · exact ⟨normEvolves_refl ns, rfl, by intro e he; simp at he⟩
  · rename_i hmiss
    split
    · rename_i c hc
      refine ⟨⟨⟨[], by simp, by simp⟩, fun h => h, ?_⟩, rfl, by intro e he; simp at he⟩
      intro hinv
      obtain ⟨hti, hcz, hj⟩ := hinv
      refine ⟨hti, hcz, ?_⟩
      intro u' e h
      rcases lookup_append_singleton_cases h with h | ⟨_, h⟩
      · exact hj u' e h
      · simp at h
    · split
      · rename_i e hfe
        refine ⟨⟨⟨[.prFetch e], rfl, by simp⟩, fun h => h, ?_⟩, rfl, ?_⟩
        · intro hinv
          obtain ⟨hti, hcz, hj⟩ := hinv
          refine ⟨hti, ?_, ?_⟩
          · intro e' he'
            rcases hcz e' he' with h | h
            · exact Or.inl (List.mem_append_left _ h)
            · exact Or.inr (List.mem_append_left _ h)
          · intro u' e' h
            rcases lookup_append_singleton_cases h with h | ⟨_, h⟩
            · exact List.mem_append_left _ (hj u' e' h)
            · simp only [PullRequestMemoEntry.errorEntry.injEq] at h
              subst h
              exact List.mem_append_right _ (by simp)
        · intro e' he' _
          simp only [Option.some.injEq] at he'
          subst he'
          exact List.mem_append_right _ (by simp)
      · rename_i data meta hfe
        refine ⟨⟨⟨[], by simp, by simp⟩, fun h => h, ?_⟩, rfl, by intro e he; simp at he⟩
        intro hinv
        obtain ⟨hti, hcz, hj⟩ := hinv
        refine ⟨hti, hcz, ?_⟩
        intro u' e h
        rcases lookup_append_singleton_cases h with h | ⟨_, h⟩
        · exact hj u' e h
        · simp at h

theorem fetchPRWithTracking_evolves (env : AggEnv) (u : String) (ns : NormState) :
    NormEvolves ns (fetchPRWithTracking env u ns).2 := by
  obtain ⟨hev, htr, herr⟩ := fetchPullRequest_evolves env u ns
  unfold fetchPRWithTracking
  split
  rename_i x out ns1 heq
  rw [heq] at hev htr herr
  split
  · exact hev
  · rename_i e
    obtain ⟨⟨l, hl, hlp⟩, hip, hinvp⟩ := hev
    refine ⟨⟨l, hl, hlp⟩, fun _ => rfl, ?_⟩
    intro hinv
    have hinv1 := hinvp hinv
    have hmem : RunFailure.prFetch e ∈ ns1.failures := herr e rfl hinv
    obtain ⟨hti, hcz, hj⟩ := hinv1
    refine ⟨?_, ?_, hj⟩
    · exact recordPartialErr_trackerInv hti
    · intro e' he'
      rw [recordPartialErr_causes] at he'
      rcases List.mem_append.mp he' with h | h
      · exact hcz e' h
      · simp only [List.mem_singleton] at h
        subst h
        exact Or.inr hmem
  · exact hev

theorem normalizePullRequestEvent_snd (env : AggEnv) (ev : GitHubEvent) (ns : NormState) :
    (normalizePullRequestEvent env ev ns).2 = ns ∨
    ∃ u, (normalizePullRequestEvent env ev ns).2 = (fetchPRWithTracking env u ns).2 := by
  unfold normalizePullRequestEvent
  dsimp only
  split
  · exact Or.inl rfl
  · cases hc : (!strTruthy (extractPullRequestPayload ev.payload.pull_request).title ||
        ev.payload.action == some "closed" &&
          (extractPullRequestPayload ev.payload.pull_request).merged == none) <;>
      cases hr : resolvePullRequestApiUrl ev ev.payload
    case false.none => exact Or.inl rfl
    case false.some u => exact Or.inl rfl
    case true.none => exact Or.inl rfl
    case true.some u => exact Or.inr ⟨u, rfl⟩

theorem normalizePullRequestReviewEvent_snd (env : AggEnv) (ev : GitHubEvent) (ns : NormState) :
    (normalizePullRequestReviewEvent env ev ns).2 = ns ∨
    ∃ u, (normalizePullRequestReviewEvent env ev ns).2 = (fetchPRWithTracking env u ns).2 := by
  unfold normalizePullRequestReviewEvent
  dsimp only
  split
  · exact Or.inl rfl
  · cases hc : (!strTruthy (extractPullRequestPayload ev.payload.pull_request).title) <;>
      cases hr : resolvePullRequestApiUrl ev ev.payload
    case false.none => exact Or.inl rfl
    case false.some u => exact Or.inl rfl
    case true.none => exact Or.inl rfl
    case true.some u => exact Or.inr ⟨u, rfl⟩

theorem normalizePullRequestReviewCommentEvent_snd (env : AggEnv) (ev : GitHubEvent)
    (ns : NormState) :
    (normalizePullRequestReviewCommentEvent env ev ns).2 = ns ∨
    ∃ u, (normalizePullRequestReviewCommentEvent env ev ns).2 =
      (fetchPRWithTracking env u ns).2 := by
  unfold normalizePullRequestReviewCommentEvent
  dsimp only
  split
  · exact Or.inl rfl
  · cases hc : (!strTruthy (extractPullRequestPayload ev.payload.pull_request).title) <;>
      cases hr : resolvePullRequestApiUrl ev ev.payload
    case false.none => exact Or.inl rfl
    case false.some u => exact Or.inl rfl
    case true.none => exact Or.inl rfl
    case true.some u => exact Or.inr ⟨u, rfl⟩

theorem normalizeEvent_evolves (env : AggEnv) (ev : GitHubEvent) (ns : NormState) :
    NormEvolves ns (normalizeEvent env ev ns).2 := by
  unfold normalizeEvent
  split_ifs
  · exact normEvolves_refl ns
  · rcases normalizePullRequestEvent_snd env ev ns with h | ⟨u, h⟩
    · rw [h]; exact normEvolves_refl ns
    · rw [h]; exact fetchPRWithTracking_evolves env u ns
  · exact normEvolves_refl ns
  · rcases normalizePullRequestReviewEvent_snd env ev ns with h | ⟨u, h⟩
    · rw [h]; exact normEvolves_refl ns
    · rw [h]; exact fetchPRWithTracking_evolves env u ns
  · rcases normalizePullRequestReviewCommentEvent_snd env ev ns with h | ⟨u, h⟩
    · rw [h]; exact normEvolves_refl ns
    · rw [h]; exact fetchPRWithTracking_evolves env u ns
  · exact normEvolves_refl ns
  · exact normEvolves_refl ns

theorem forkEvolves_refl (fs : ForkState) : ForkEvolves fs fs :=
  ⟨⟨[], by simp, by simp⟩, fun _ _ h => h⟩

theorem forkEvolves_trans {a b c : ForkState} (h1 : ForkEvolves a b) (h2 : ForkEvolves b c) :
    ForkEvolves a c := by
  obtain ⟨⟨l1, e1, p1⟩, m1⟩ := h1
  obtain ⟨⟨l2, e2, p2⟩, m2⟩ := h2
  exact ⟨⟨l1 ++ l2, by rw [e2, e1, List.append_assoc],
    fun f hf => (List.mem_append.mp hf).elim (p1 f) (p2 f)⟩,
    fun k v h => m2 k v (m1 k v h)⟩

theorem fetchRepoForkStatus_evolves (env : AggEnv) (u : String) (fs : ForkState) :
    ForkEvolves fs (fetchRepoForkStatus env u fs).2
    ∧ List.lookup u (fetchRepoForkStatus env u fs).2.forkMemo =
        some (fetchRepoForkStatus env u fs).1 := by
  unfold fetchRepoForkStatus
  split
  · rename_i b heq
    exact ⟨forkEvolves_refl fs, heq⟩
  · rename_i hmiss
    split
    · refine ⟨⟨⟨[], by simp, by simp⟩, fun k v h => lookup_append_of_some h⟩, ?_⟩
      exact lookup_append_singleton_self hmiss
    · split
      · rename_i e hfe
        refine ⟨⟨⟨[.forkFetch e], rfl, by simp⟩, fun k v h => lookup_append_of_some h⟩, ?_⟩
        exact lookup_append_singleton_self hmiss
      · rename_i data meta hfe
        refine ⟨⟨⟨[], by simp, by simp⟩, fun k v h => lookup_append_of_some h⟩, ?_⟩
        exact lookup_append_singleton_self hmiss

theorem prefetchForks_effect (env : AggEnv) :
    ∀ (urls : List String) (st : AggState),
      (prefetchForks env urls st).items = st.items
      ∧ (prefetchForks env urls st).seenUrls = st.seenUrls
      ∧ (prefetchForks env urls st).prMemo = st.prMemo
      ∧ (prefetchForks env urls st).tracker = st.tracker
      ∧ (prefetchForks env urls st).produced = st.produced
      ∧ (prefetchForks env urls st).processedEvents = st.processedEvents
      ∧ (prefetchForks env urls st).pagesFetched = st.pagesFetched
      ∧ ForkEvolves st.toFork (prefetchForks env urls st).toFork
      ∧ (∀ u ∈ urls, (List.lookup u (prefetchForks env urls st).forkMemo).isSome) := by
  intro urls
  induction urls with
  | nil =>
    intro st
    refine ⟨rfl, rfl, rfl, rfl, rfl, rfl, rfl, forkEvolves_refl _, ?_⟩
    intro u hu
    simp at hu
  | cons u rest ih =>
    intro st
    obtain ⟨hfe, hself⟩ := fetchRepoForkStatus_evolves env u st.toFork
    obtain ⟨h1, h2, h3, h4, h5, h6, h7, h8, h9⟩ :=
      ih (st.withFork (fetchRepoForkStatus env u st.toFork).2)
    simp only [prefetchForks]
    refine ⟨h1, h2, h3, h4, h5, h6, h7, ?_, ?_⟩
    · exact forkEvolves_trans (by rw [withFork_toFork]; exact hfe) h8
    · intro v hv
      rcases List.mem_cons.mp hv with h | hv
      · subst h
        have hm : List.lookup v (prefetchForks env rest
            (st.withFork (fetchRepoForkStatus env v st.toFork).2)).forkMemo =
            some (fetchRepoForkStatus env v st.toFork).1 := h8.2 v _ hself
        rw [hm]
        rfl
      · exact h9 v hv

theorem prefetchPRs_effect (env : AggEnv) :
    ∀ (urls : List String) (st : AggState),
      (prefetchPRs env urls st).items = st.items
      ∧ (prefetchPRs env urls st).seenUrls = st.seenUrls
      ∧ (prefetchPRs env urls st).forkMemo = st.forkMemo
      ∧ (prefetchPRs env urls st).produced = st.produced
      ∧ (prefetchPRs env urls st).processedEvents = st.processedEvents
      ∧ (prefetchPRs env urls st).pagesFetched = st.pagesFetched
      ∧ NormEvolves st.toNorm (prefetchPRs env urls st).toNorm := by
  intro urls
  induction urls with
  | nil =>
    intro st
    exact ⟨rfl, rfl, rfl, rfl, rfl, rfl, normEvolves_refl _⟩
  | cons u rest ih =>
    intro st
    obtain ⟨hev, -, -⟩ := fetchPullRequest_evolves env u st.toNorm
    obtain ⟨h1, h2, h3, h4, h5, h6, h7⟩ :=
      ih (st.withNorm (fetchPullRequest env u st.toNorm).2)
    simp only [prefetchPRs]
    refine ⟨h1, h2, h3, h4, h5, h6, ?_⟩
    exact normEvolves_trans (by rw [withNorm_toNorm]; exact hev) h7

/-! ### Item provenance lemmas -/

theorem normalizeIssuesEvent_item {ev : GitHubEvent} {item : ActivityItem}
    (h : normalizeIssuesEvent ev = some item) :
    item.id = ev.id ∧ item.repo = eventRepo ev := by
  unfold normalizeIssuesEvent at h
  dsimp only at h
  split at h
  · simp at h
  · split at h
    · simp at h
    · simp only [Option.some.injEq] at h
      subst h
      exact ⟨rfl, rfl⟩

theorem normalizeIssueCommentEvent_item {ev : GitHubEvent} {item : ActivityItem}
    (h : normalizeIssueCommentEvent ev = some item) :
    item.id = ev.id ∧ item.repo = eventRepo ev := by
  unfold normalizeIssueCommentEvent at h
  dsimp only at h
  split at h
  · simp at h
  · split at h
    · simp at h
    · simp only [Option.some.injEq] at h
      subst h
      exact ⟨rfl, rfl⟩

theorem normalizeReleaseEvent_item {ev : GitHubEvent} {item : ActivityItem}
    (h : normalizeReleaseEvent ev = some item) :
    item.id = ev.id ∧ item.repo = eventRepo ev := by
  unfold normalizeReleaseEvent at h
  dsimp only at h
  split at h
  · simp at h
  · split at h
    · simp at h
    · simp only [Option.some.injEq] at h
      subst h
      exact ⟨rfl, rfl⟩

theorem pair_item_aux {P Q : Prop} [Decidable P] [Decidable Q] {ns ns1 : NormState}
    {R item : ActivityItem}
    (h : (if P then ((none : Option ActivityItem), ns)
          else ((if Q then none else some R), ns1)).1 = some item) :
    item = R := by
  split at h
  · simp at h
  · split at h
    · simp at h
    · simpa using h.symm

theorem pair_item_aux2 {P Q1 Q2 : Prop} [Decidable P] [Decidable Q1] [Decidable Q2]
    {ns ns1 : NormState} {R item : ActivityItem}
    (h : (if P then ((none : Option ActivityItem), ns)
          else ((if Q1 then none else if Q2 then none else some R), ns1)).1 = some item) :
    item = R := by
  split at h
  · simp at h
  · split at h
    · simp at h
    · split at h
      · simp at h
      · simpa using h.symm

theorem normalizePullRequestEvent_item (env : AggEnv) (ev : GitHubEvent) (ns : NormState)
    {item : ActivityItem} (h : (normalizePullRequestEvent env ev ns).1 = some item) :
    item.id = ev.id ∧ item.repo = eventRepo ev := by
  unfold normalizePullRequestEvent at h
  dsimp only at h
  have he := pair_item_aux h
  subst he
  exact ⟨rfl, rfl⟩

theorem normalizePullRequestReviewEvent_item (env : AggEnv) (ev : GitHubEvent) (ns : NormState)
    {item : ActivityItem} (h : (normalizePullRequestReviewEvent env ev ns).1 = some item) :
    item.id = ev.id ∧ item.repo = eventRepo ev := by
  unfold normalizePullRequestReviewEvent at h
  dsimp only at h
  have he := pair_item_aux2 h
  subst he
  exact ⟨rfl, rfl⟩

theorem normalizePullRequestReviewCommentEvent_item (env : AggEnv) (ev : GitHubEvent)
    (ns : NormState) {item : ActivityItem}
    (h : (normalizePullRequestReviewCommentEvent env ev ns).1 = some item) :
    item.id = ev.id ∧ item.repo = eventRepo ev := by
  unfold normalizePullRequestReviewCommentEvent at h
  dsimp only at h
  have he := pair_item_aux h
  subst he
  exact ⟨rfl, rfl⟩

theorem normalizePullRequestEventPreview_item {ev : GitHubEvent} {item : ActivityItem}
    (h : normalizePullRequestEventPreview ev = some item) :
    item.id = ev.id ∧ item.repo = eventRepo ev := by
  unfold normalizePullRequestEventPreview at h
  dsimp only at h
  split at h
  · simp at h
  · split at h
    · simp at h
    · simp only [Option.some.injEq] at h
      subst h
      exact ⟨rfl, rfl⟩

theorem normalizePullRequestReviewEventPreview_item {ev : GitHubEvent} {item : ActivityItem}
    (h : normalizePullRequestReviewEventPreview ev = some item) :
    item.id = ev.id ∧ item.repo = eventRepo ev := by
  unfold normalizePullRequestReviewEventPreview at h
  dsimp only at h
  split at h
  · simp at h
  · split at h
    · simp at h
    · split at h
      · simp at h
      · simp only [Option.some.injEq] at h
        subst h
        exact ⟨rfl, rfl⟩

theorem normalizePullRequestReviewCommentEventPreview_item {ev : GitHubEvent}
    {item : ActivityItem} (h : normalizePullRequestReviewCommentEventPreview ev = some item) :
    item.id = ev.id ∧ item.repo = eventRepo ev := by
  unfold normalizePullRequestReviewCommentEventPreview at h
  dsimp only at h
  split at h
  · simp at h
  · split at h
    · simp at h
    · split at h
      · simp at h
      · simp only [Option.some.injEq] at h
        subst h
        exact ⟨rfl, rfl⟩

theorem normalizeEvent_item_source (env : AggEnv) (ev : GitHubEvent) (ns : NormState)
    {item : ActivityItem} (h : (normalizeEvent env ev ns).1 = some item) :
    item.id = ev.id ∧ item.repo = eventRepo ev := by
  unfold normalizeEvent at h
  split_ifs at h
  · exact normalizeIssuesEvent_item h
  · exact normalizePullRequestEvent_item env ev ns h
  · exact normalizeIssueCommentEvent_item h
  · exact normalizePullRequestReviewEvent_item env ev ns h
  · exact normalizePullRequestReviewCommentEvent_item env ev ns h
  · exact normalizeReleaseEvent_item h

theorem normalizeEventPreview_item_source (ev : GitHubEvent) {item : ActivityItem}
    (h : normalizeEventPreview ev = some item) :
    item.id = ev.id ∧ item.repo = eventRepo ev := by
  unfold normalizeEventPreview at h
  split_ifs at h
  · exact normalizeIssuesEvent_item h
  · exact normalizePullRequestEventPreview_item h
  · exact normalizeIssueCommentEvent_item h
  · exact normalizePullRequestReviewEventPreview_item h
  · exact normalizePullRequestReviewCommentEventPreview_item h
  · exact normalizeReleaseEvent_item h

/-! ### Aggregation invariant preservation -/

theorem aggInv_withNorm {st : AggState} {ns' : NormState}
    (hinv : AggInv st) (hev : NormEvolves st.toNorm ns') : AggInv (st.withNorm ns') := by
  obtain ⟨hn, hk, ha, hb, hc, hd, he, hf⟩ := hinv
  obtain ⟨⟨l, hl, hlp⟩, hip, hinvp⟩ := hev
  refine ⟨?_, ?_, ha, hb, hc, hd, he, hf⟩
  · rw [withNorm_toNorm]
    exact hinvp hn
  · intro e hmem
    have hmem' : RunFailure.pageFetch e ∈ ns'.failures := hmem
    rw [hl] at hmem'
    have hold : RunFailure.pageFetch e ∈ st.failures := by
      rcases List.mem_append.mp hmem' with h | h
      · exact h
      · obtain ⟨e', he'⟩ := hlp _ h
        simp at he'
    exact hip (hk e hold)

theorem aggInv_processed_append {st : AggState} {ev : GitHubEvent}
    (hinv : AggInv st) (hfork : List.lookup ev.repoUrl st.forkMemo = some false) :
    AggInv { st with processedEvents := st.processedEvents ++ [ev] } := by
  obtain ⟨hn, hk, ha, hb, hc, hd, he, hf⟩ := hinv
  refine ⟨hn, hk, ha, hb, hc, hd, ?_, ?_⟩
  · intro it hit
    obtain ⟨ev', hev', h1, h2⟩ := he it hit
    exact ⟨ev', List.mem_append_left _ hev', h1, h2⟩
  · intro ev' hev'
    rcases List.mem_append.mp hev' with h | h
    · exact hf ev' h
    · simp only [List.mem_singleton] at h
      subst h
      exact hfork

theorem aggInv_produced_append {st : AggState} {item : ActivityItem} {ev : GitHubEvent}
    (hinv : AggInv st) (hseen : item.url ∈ st.seenUrls)
    (hev : ev ∈ st.processedEvents) (hid : item.id = ev.id)
    (hrepo : item.repo = eventRepo ev) :
    AggInv { st with produced := st.produced ++ [item] } := by
  obtain ⟨hn, hk, ha, hb, hc, hd, he, hf⟩ := hinv
  refine ⟨hn, hk, ha, hb, ?_, ?_, ?_, hf⟩
  · intro it hit
    have hfind := hc it hit
    rw [List.find?_append, hfind]
    rfl
  · intro p hp
    rcases List.mem_append.mp hp with h | h
    · exact hd p h
    · simp only [List.mem_singleton] at h
      subst h
      exact hseen
  · intro it hit
    rcases List.mem_append.mp hit with h | h
    · exact he it h
    · simp only [List.mem_singleton] at h
      subst h
      exact ⟨ev, hev, hid, hrepo⟩

theorem aggInv_push_new {st : AggState} {item : ActivityItem} {ev : GitHubEvent}
    (hinv : AggInv st) (hnew : item.url ∉ st.seenUrls)
    (hev : ev ∈ st.processedEvents) (hid : item.id = ev.id)
    (hrepo : item.repo = eventRepo ev) :
    AggInv { st with produced := st.produced ++ [item]
                     seenUrls := st.seenUrls ++ [item.url]
                     items := st.items ++ [item] } := by
  obtain ⟨hn, hk, ha, hb, hc, hd, he, hf⟩ := hinv
  refine ⟨hn, hk, ?_, ?_, ?_, ?_, ?_, hf⟩
  · rw [List.map_append, ha]
    rfl
  · rw [List.map_append]
    refine List.nodup_append.mpr ⟨hb, by simp, ?_⟩
    intro x hx hx'
    simp only [List.map_cons, List.map_nil, List.mem_singleton] at hx'
    subst hx'
    exact hnew (ha ▸ hx)
  · intro it hit
    rcases List.mem_append.mp hit with h | h
    · have hfind := hc it h
      rw [List.find?_append, hfind]
      rfl
    · simp only [List.mem_singleton] at h
      rw [h]
      have hnone : st.produced.find? (fun j => j.url == item.url) = none := by
        rw [List.find?_eq_none]
        intro p hp hbeq
        have hpu : p.url = item.url := by simpa using hbeq
        exact hnew (hpu ▸ hd p hp)
      rw [List.find?_append, hnone]
      simp [List.find?]
  · intro p hp
    rcases List.mem_append.mp hp with h | h
    · exact List.mem_append_left _ (hd p h)
    · simp only [List.mem_singleton] at h
      subst h
      exact List.mem_append_right _ (by simp)
  · intro it hit
    rcases List.mem_append.mp hit with h | h
    · exact he it h
    · simp only [List.mem_singleton] at h
      subst h
      exact ⟨ev, hev, hid, hrepo⟩

theorem collectEvents_inv (env : AggEnv) (limit : ℤ) :
    ∀ (evs : List GitHubEvent) (st : AggState),
      AggInv st →
      (∀ ev ∈ evs, List.lookup ev.repoUrl st.forkMemo = some false) →
      AggInv (collectEvents env limit evs st)
      ∧ (collectEvents env limit evs st).forkMemo = st.forkMemo
      ∧ (collectEvents env limit evs st).pagesFetched = st.pagesFetched := by
  intro evs
  induction evs with
  | nil =>
    intro st hinv hpre
    exact ⟨hinv, rfl, rfl⟩
  | cons ev rest ih =>
    intro st hinv hpre
    have hfork : List.lookup ev.repoUrl st.forkMemo = some false :=
      hpre ev (List.mem_cons_self ev rest)
    have hinv0 : AggInv { st with processedEvents := st.processedEvents ++ [ev] } :=
      aggInv_processed_append hinv hfork
    have hev1 := normalizeEvent_evolves env ev
      ({ st with processedEvents := st.processedEvents ++ [ev] } : AggState).toNorm
    have hinv1 : AggInv (({ st with processedEvents := st.processedEvents ++ [ev] } :
        AggState).withNorm
        (normalizeEvent env ev ({ st with processedEvents := st.processedEvents ++ [ev] } :
          AggState).toNorm).2) :=
      aggInv_withNorm hinv0 hev1
    have hpre1 : ∀ ev' ∈ rest,
        List.lookup ev'.repoUrl (({ st with processedEvents := st.processedEvents ++ [ev] } :
          AggState).withNorm
          (normalizeEvent env ev ({ st with processedEvents := st.processedEvents ++ [ev] } :
            AggState).toNorm).2).forkMemo = some false :=
      fun ev' h => hpre ev' (List.mem_cons_of_mem ev h)
    simp only [collectEvents]
    split
    · exact ih _ hinv1 hpre1
    · rename_i item heq
      have hprov := normalizeEvent_item_source env ev _ heq
      have hmem : ev ∈ (({ st with processedEvents := st.processedEvents ++ [ev] } :
          AggState).withNorm
          (normalizeEvent env ev ({ st with processedEvents := st.processedEvents ++ [ev] } :
            AggState).toNorm).2).processedEvents :=
        List.mem_append_right _ (by simp)
      split
      · rename_i hcont
        have hseen : item.url ∈ (({ st with processedEvents := st.processedEvents ++ [ev] } :
            AggState).withNorm
            (normalizeEvent env ev ({ st with processedEvents := st.processedEvents ++ [ev] } :
              AggState).toNorm).2).seenUrls := by
          simpa using hcont
        have hinv2 := aggInv_produced_append hinv1 hseen hmem hprov.1 hprov.2
        exact ih _ hinv2 hpre1
      · rename_i hcont
        have hnew : item.url ∉ (({ st with processedEvents := st.processedEvents ++ [ev] } :
            AggState).withNorm
            (normalizeEvent env ev ({ st with processedEvents := st.processedEvents ++ [ev] } :
              AggState).toNorm).2).seenUrls := by
          simpa using hcont
        have hinv3 := aggInv_push_new hinv1 hnew hmem hprov.1 hprov.2
        split
        · exact ⟨hinv3, rfl, rfl⟩
        · exact ih _ hinv3 hpre1

theorem collectEvents_fields (env : AggEnv) (limit : ℤ) :
    ∀ (evs : List GitHubEvent) (st : AggState),
      (collectEvents env limit evs st).forkMemo = st.forkMemo
      ∧ (collectEvents env limit evs st).pagesFetched = st.pagesFetched := by
  intro evs
  induction evs with
  | nil => exact fun st => ⟨rfl, rfl⟩
  | cons ev rest ih =>
    intro st
    simp only [collectEvents]
    split
    · exact ih _
    · split
      · exact ih _
      · split
        · exact ⟨rfl, rfl⟩
        · exact ih _

theorem mem_dedupStringsAux :
    ∀ (l seen : List String) (u : String), u ∈ l → u ∉ seen → u ∈ dedupStringsAux seen l := by
  intro l
  induction l with
  | nil => intro seen u hu; simp at hu
  | cons s rest ih =>
    intro seen u hu hns
    simp only [dedupStringsAux]
    split
    · rename_i hcont
      rcases List.mem_cons.mp hu with h | h
      · subst h
        exact absurd (by simpa using hcont) hns
      · exact ih seen u h hns
    · rcases List.mem_cons.mp hu with h | h
      · subst h
        exact List.mem_cons_self _ _
      · by_cases hus : u = s
        · subst hus
          exact List.mem_cons_self _ _
        · refine List.mem_cons_of_mem _ (ih (s :: seen) u h ?_)
          intro hmem
          rcases List.mem_cons.mp hmem with h' | h'
          · exact hus h'
          · exact hns h'

theorem mem_dedupStrings {l : List String} {u : String} (h : u ∈ l) : u ∈ dedupStrings l :=
  mem_dedupStringsAux l [] u h (by simp)

theorem aggInv_of_fields {st st' : AggState} (hinv : AggInv st)
    (h1 : st'.items = st.items) (h2 : st'.seenUrls = st.seenUrls)
    (h3 : st'.forkMemo = st.forkMemo) (h4 : st'.prMemo = st.prMemo)
    (h5 : st'.tracker = st.tracker) (h6 : st'.failures = st.failures)
    (h7 : st'.produced = st.produced) (h8 : st'.processedEvents = st.processedEvents) :
    AggInv st' := by
  obtain ⟨hn, hk, ha, hb, hc, hd, he, hf⟩ := hinv
  unfold AggInv NormInv at *
  simp only [AggState.toNorm] at *
  rw [h1, h2, h3, h4, h5, h6, h7, h8]
  exact ⟨hn, hk, ha, hb, hc, hd, he, hf⟩

theorem aggInv_prefetchForks (env : AggEnv) (urls : List String) {st : AggState}
    (hinv : AggInv st) : AggInv (prefetchForks env urls st) := by
  obtain ⟨h1, h2, h3, h4, h5, h6, h7, h8, h9⟩ := prefetchForks_effect env urls st
  obtain ⟨⟨l, hl, hlp⟩, hmono⟩ := h8
  obtain ⟨⟨hti, hcz, hj⟩, hk, ha, hb, hc, hd, he, hf⟩ := hinv
  have hfail : (prefetchForks env urls st).failures = st.failures ++ l := hl
  refine ⟨⟨?_, ?_, ?_⟩, ?_, ?_, ?_, ?_, ?_, ?_, ?_⟩
  · show TrackerInv (prefetchForks env urls st).toNorm.tracker
    have ht : (prefetchForks env urls st).toNorm.tracker = st.tracker := h4
    rw [ht]
    exact hti
  · show ∀ e ∈ (prefetchForks env urls st).toNorm.tracker.causes, _ ∨ _
    have ht : (prefetchForks env urls st).toNorm.tracker = st.tracker := h4
    rw [ht]
    intro e he
    have hn : (prefetchForks env urls st).toNorm.failures = st.failures ++ l := hl
    rw [hn]
    rcases hcz e he with h | h
    · exact Or.inl (List.mem_append_left _ h)
    · exact Or.inr (List.mem_append_left _ h)
  · show ∀ u e, List.lookup u (prefetchForks env urls st).toNorm.prMemo = _ → _
    have hp : (prefetchForks env urls st).toNorm.prMemo = st.prMemo := h3
    have hn : (prefetchForks env urls st).toNorm.failures = st.failures ++ l := hl
    rw [hp, hn]
    intro u e hx
    exact List.mem_append_left _ (hj u e hx)
  · intro e hmem
    rw [hfail] at hmem
    rw [h4]
    rcases List.mem_append.mp hmem with h | h
    · exact hk e h
    · obtain ⟨e', he'⟩ := hlp _ h
      simp at he'
  · rw [h2, h1]
    exact ha
  · rw [h1]
    exact hb
  · rw [h1, h5]
    exact hc
  · rw [h5, h2]
    exact hd
  · rw [h5, h6]
    exact he
  · rw [h6]
    intro ev hev
    exact hmono _ _ (hf ev hev)

theorem aggInv_prefetchPRs (env : AggEnv) (urls : List String) {st : AggState}
    (hinv : AggInv st) : AggInv (prefetchPRs env urls st) := by
  obtain ⟨h1, h2, h3, h4, h5, h6, hev⟩ := prefetchPRs_effect env urls st
  obtain ⟨⟨l, hl, hlp⟩, hip, hinvp⟩ := hev
  obtain ⟨hn, hk, ha, hb, hc, hd, he, hf⟩ := hinv
  refine ⟨hinvp hn, ?_, ?_, ?_, ?_, ?_, ?_, ?_⟩
  · intro e hmem
    have hmem' : RunFailure.pageFetch e ∈ (prefetchPRs env urls st).toNorm.failures := hmem
    rw [hl] at hmem'
    have hold : RunFailure.pageFetch e ∈ st.failures := by
      rcases List.mem_append.mp hmem' with h | h
      · exact h
      · obtain ⟨e', he'⟩ := hlp _ h
        simp at he'
    exact hip (hk e hold)
  · rw [h2, h1]
    exact ha
  · rw [h1]
    exact hb
  · rw [h1, h4]
    exact hc
  · rw [h4, h2]
    exact hd
  · rw [h4, h5]
    exact he
  · rw [h5, h3]
    exact hf

theorem candidates_lookup_false {memo : List (String × Bool)} {events : List GitHubEvent}
    {ev : GitHubEvent} (hmem : ev ∈ pageCandidates memo events)
    (hsome : (List.lookup ev.repoUrl memo).isSome) :
    List.lookup ev.repoUrl memo = some false := by
  obtain ⟨-, hcond⟩ := List.mem_filter.mp hmem
  cases hlk : List.lookup ev.repoUrl memo with
  | none => rw [hlk] at hsome; simp at hsome
  | some b =>
    rw [hlk] at hcond
    cases b
    · rfl
    · simp at hcond

theorem aggInv_init : AggInv ({} : AggState) := by
  refine ⟨⟨⟨rfl, ⟨fun h => absurd h (by decide), fun h => absurd rfl h⟩⟩, ?_, ?_⟩,
    ?_, rfl, List.nodup_nil, ?_, ?_, ?_, ?_⟩
  · intro e he
    exact absurd he (List.not_mem_nil e)
  · intro u e h
    exact Option.noConfusion h
  · intro e h
    exact absurd h (List.not_mem_nil _)
  · intro it h
    exact absurd h (List.not_mem_nil _)
  · intro p h
    exact absurd h (List.not_mem_nil _)
  · intro it h
    exact absurd h (List.not_mem_nil _)
  · intro ev h
    exact absurd h (List.not_mem_nil _)

theorem aggLoop_inv (env : AggEnv) (limit : ℤ) :
    ∀ (fuel : ℕ) (next : Option String) (st st' : AggState),
      AggInv st → aggLoop env limit fuel next st = .ok st' → AggInv st' := by
  intro fuel
  induction fuel with
  | zero =>
    intro next st st' hinv h
    simp only [aggLoop] at h
    cases h
    exact hinv
  | succ n ih =>
    intro next st st' hinv h
    cases next with
    | none =>
      simp only [aggLoop] at h
      cases h
      exact hinv
    | some url =>
      simp only [aggLoop] at h
      have hinv1 : AggInv { st with
          rateLimit := (fetchEventsPage (env.page url) st.rateLimit).2
          pagesFetched := st.pagesFetched + 1 } :=
        aggInv_of_fields hinv rfl rfl rfl rfl rfl rfl rfl rfl
      split at h
      · rename_i e heq
        split at h
        · cases h
          obtain ⟨⟨hti, hcz, hj⟩, hk, ha, hb, hc, hd, he, hf⟩ := hinv1
          refine ⟨⟨?_, ?_, ?_⟩, ?_, ha, hb, hc, hd, he, hf⟩
          · exact recordPartialErr_trackerInv hti
          · intro e' he'
            have he'' : e' ∈ st.tracker.causes ++ [e] := he'
            rcases List.mem_append.mp he'' with hx | hx
            · rcases hcz e' hx with hy | hy
              · exact Or.inl (List.mem_append_left _ hy)
              · exact Or.inr (List.mem_append_left _ hy)
            · simp only [List.mem_singleton] at hx
              subst hx
              exact Or.inl (List.mem_append_right _ (by simp))
          · intro u' e' hx
            exact List.mem_append_left _ (hj u' e' hx)
          · intro e' _
            rfl
        · cases h
      · rename_i events next' heq
        split at h
        · cases h
          exact hinv1
        · set st1 : AggState := { st with
            rateLimit := (fetchEventsPage (env.page url) st.rateLimit).2
            pagesFetched := st.pagesFetched + 1 } with hst1
          set st2 := prefetchForks env (dedupStrings (events.map (·.repoUrl))) st1 with hst2
          have hinv2 : AggInv st2 := aggInv_prefetchForks env _ hinv1
          set candidates := pageCandidates st2.forkMemo events with hcand
          set st3 := prefetchPRs env (dedupStrings (candidates.filterMap needsPullRequestFetch))
            st2 with hst3
          have hinv3 : AggInv st3 := aggInv_prefetchPRs env _ hinv2
          have hpre : ∀ ev ∈ candidates, List.lookup ev.repoUrl st3.forkMemo = some false := by
            intro ev hev
            have hmemo3 : st3.forkMemo = st2.forkMemo :=
              (prefetchPRs_effect env _ st2).2.2.1
            rw [hmemo3]
            apply candidates_lookup_false hev
            have hmem : ev.repoUrl ∈ dedupStrings (events.map (·.repoUrl)) := by
              apply mem_dedupStrings
              exact List.mem_map.mpr ⟨ev, (List.mem_filter.mp hev).1, rfl⟩
            exact (prefetchForks_effect env _ st1).2.2.2.2.2.2.2.2 ev.repoUrl hmem
          have hinv4 : AggInv (collectEvents env limit candidates st3) :=
            (collectEvents_inv env limit candidates st3 hinv3 hpre).1
          split at h
          · cases h
            exact hinv4
          · exact ih _ _ _ hinv4 h

theorem runAggregation_inv {env : AggEnv} {options : AggOptions} {st : AggState}
    (h : runAggregation env options = .ok st) : AggInv st := by
  unfold runAggregation at h
  exact aggLoop_inv env (clampLimit options.limit) _ _ _ _ aggInv_init h

theorem aggLoop_pages_mono (env : AggEnv) (limit : ℤ) :
    ∀ (fuel : ℕ) (next : Option String) (st st' : AggState),
      aggLoop env limit fuel next st = .ok st' → st.pagesFetched ≤ st'.pagesFetched := by
  intro fuel
  induction fuel with
  | zero =>
    intro next st st' h
    simp only [aggLoop] at h
    cases h
    exact le_refl _
  | succ n ih =>
    intro next st st' h
    cases next with
    | none =>
      simp only [aggLoop] at h
      cases h
      exact le_refl _
    | some url =>
      simp only [aggLoop] at h
      split at h
      · split at h
        · cases h
          exact Nat.le_succ _
        · cases h
      · split at h
        · cases h
          exact Nat.le_succ _
        · split at h
          · cases h
            rw [(collectEvents_fields env limit _ _).2,
              (prefetchPRs_effect env _ _).2.2.2.2.2.1,
              (prefetchForks_effect env _ _).2.2.2.2.2.2.1]
            exact Nat.le_succ _
          · have hle := ih _ _ _ h
            rw [(collectEvents_fields env limit _ _).2,
              (prefetchPRs_effect env _ _).2.2.2.2.2.1,
              (prefetchForks_effect env _ _).2.2.2.2.2.2.1] at hle
            exact le_trans (Nat.le_succ _) hle

theorem aggLoop_step_pages (env : AggEnv) (limit : ℤ) (fuel : ℕ) (url : String)
    (st st' : AggState) (h : aggLoop env limit (fuel + 1) (some url) st = .ok st') :
    st.pagesFetched + 1 ≤ st'.pagesFetched := by
  simp only [aggLoop] at h
  split at h
  · split at h
    · cases h
      exact le_refl _
    · cases h
  · split at h
    · cases h
      exact le_refl _
    · split at h
      · cases h
        rw [(collectEvents_fields env limit _ _).2,
          (prefetchPRs_effect env _ _).2.2.2.2.2.1,
          (prefetchForks_effect env _ _).2.2.2.2.2.2.1]
      · have hle := aggLoop_pages_mono env limit _ _ _ _ h
        rw [(collectEvents_fields env limit _ _).2,
          (prefetchPRs_effect env _ _).2.2.2.2.2.1,
          (prefetchForks_effect env _ _).2.2.2.2.2.2.1] at hle
        exact hle

theorem runAggregation_pages {env : AggEnv} {options : AggOptions} {st : AggState}
    (h : runAggregation env options = .ok st) : 1 ≤ st.pagesFetched := by
  simp only [runAggregation] at h
  have hfuel : ∃ k, (clampMaxPages options.maxPages).toNat = k + 1 := by
    have h1 : (1 : ℤ) ≤ clampMaxPages options.maxPages := le_max_left _ _
    have : 1 ≤ (clampMaxPages options.maxPages).toNat := by omega
    exact ⟨(clampMaxPages options.maxPages).toNat - 1, by omega⟩
  obtain ⟨k, hk⟩ := hfuel
  rw [hk] at h
  simpa using aggLoop_step_pages env _ k _ _ _ h

/-! ### Sort lemmas -/

theorem itemsSort_sorted (l : List ActivityItem) :
    (l.insertionSort (fun a b => b.createdAt ≤ a.createdAt)).Pairwise
      (fun a b => b.createdAt ≤ a.createdAt) := by
  have ht : IsTotal ActivityItem (fun a b => b.createdAt ≤ a.createdAt) :=
    ⟨fun a b => le_total b.createdAt a.createdAt⟩
  have htr : IsTrans ActivityItem (fun a b => b.createdAt ≤ a.createdAt) :=
    ⟨fun _ _ _ h1 h2 => le_trans h2 h1⟩
  exact List.sorted_insertionSort _ l

theorem itemsSort_perm (l : List ActivityItem) :
    (l.insertionSort (fun a b => b.createdAt ≤ a.createdAt)).Perm l :=
  List.perm_insertionSort _ l

theorem itemsSort_filter_eq (l : List ActivityItem) (t : ℤ) :
    (l.insertionSort (fun a b => b.createdAt ≤ a.createdAt)).filter
        (fun it => it.createdAt == t)
      = l.filter (fun it => it.createdAt == t) := by
  have hall : ∀ x ∈ l.filter (fun it : ActivityItem => it.createdAt == t), x.createdAt = t :=
    fun x hx => by simpa using List.of_mem_filter hx
  have hpw : (l.filter (fun it : ActivityItem => it.createdAt == t)).Pairwise
      (fun a b => b.createdAt ≤ a.createdAt) := by
    apply List.pairwise_of_forall_mem_list
    intro a ha b hb
    rw [hall a ha, hall b hb]
  have hsub : List.Sublist (l.filter (fun it : ActivityItem => it.createdAt == t))
      (l.insertionSort (fun a b => b.createdAt ≤ a.createdAt)) :=
    List.sublist_insertionSort hpw (List.filter_sublist l)
  have hidem : (l.filter (fun it : ActivityItem => it.createdAt == t)).filter
      (fun it => it.createdAt == t) = l.filter (fun it : ActivityItem => it.createdAt == t) := by
    rw [List.filter_eq_self]
    intro x hx
    exact (List.mem_filter.mp hx).2
  have hsub' := hidem ▸ List.Sublist.filter (fun it : ActivityItem => it.createdAt == t) hsub
  have hperm := (itemsSort_perm l).filter (fun it : ActivityItem => it.createdAt == t)
  exact (List.Sublist.eq_of_length hsub' hperm.length_eq.symm).symm

/-! ### C1 — page-fetch failure semantics -/

/-- C1: when a page fetch fails with zero items collected, the whole run
fails by propagating the error; when it fails after at least one item was
collected, the run stops and returns the collected items with the tracker
marked partial via `recordPartial`; `recordPartial` keeps the first recorded
error (later errors never overwrite it, so the stored error is always the
head of the recorded causes); a failed run makes `getRecentActivity`
propagate the same error with no response. -/
theorem getRecentActivity_page_failure_semantics :
    (∀ (env : AggEnv) (limit : ℤ) (fuel : ℕ) (url : String) (st : AggState)
        (e : GitHubErrorInfo) (rl : RateLimitInfo),
      fetchEventsPage (env.page url) st.rateLimit = (.err e, rl) →
      (st.items = [] → aggLoop env limit (fuel + 1) (some url) st = .error e)
      ∧ (st.items ≠ [] → aggLoop env limit (fuel + 1) (some url) st =
          .ok { st with rateLimit := rl, pagesFetched := st.pagesFetched + 1
                        tracker := recordPartialErr st.tracker e
                        failures := st.failures ++ [.pageFetch e] }))
    ∧ (∀ (t : ErrorTracker) (e : GitHubErrorInfo),
        (recordPartialErr t e).isPartial = true
        ∧ (recordPartialErr t e).errorInfo = some (t.errorInfo.getD e))
    ∧ (∀ (env : AggEnv) (options : AggOptions) (st : AggState),
        runAggregation env options = .ok st →
        st.tracker.errorInfo = st.tracker.causes.head?)
    ∧ (∀ (env : AggEnv) (options : AggOptions) (now : String) (e : GitHubErrorInfo),
        runAggregation env options = .error e →
        getRecentActivity env options now = .error e) := by
  refine ⟨?_, ?_, ?_, ?_⟩
  · intro env limit fuel url st e rl heq
    constructor
    · intro hempty
      simp only [aggLoop, heq, hempty]
      rfl
    · intro hne
      simp only [aggLoop, heq]
      rw [if_pos]
      exact List.length_pos.mpr hne
  · intro t e
    refine ⟨rfl, ?_⟩
    cases ht : t.errorInfo <;> simp [recordPartialErr, ht]
  · intro env options st h
    exact (runAggregation_inv h).1.1.1
  · intro env options now e h
    unfold getRecentActivity
    rw [h]
    rfl

/-- Witness for C1 at concrete inputs: a 404 on the first page aborts the
run when nothing was collected, and stops with a partial tracker when one
item was already collected. -/
theorem getRecentActivity_page_failure_semantics_witness :
    aggLoop fixEnvErr 20 1 (some "u") {} = .error notFoundFix
    ∧ aggLoop fixEnvErr 20 1 (some "u") fixStOne =
        .ok { fixStOne with
              rateLimit := {}
              pagesFetched := fixStOne.pagesFetched + 1
              tracker := recordPartialErr fixStOne.tracker notFoundFix
              failures := fixStOne.failures ++ [.pageFetch notFoundFix] } :=
  ⟨(getRecentActivity_page_failure_semantics.1 fixEnvErr 20 0 "u" {} notFoundFix {} rfl).1 rfl,
   (getRecentActivity_page_failure_semantics.1 fixEnvErr 20 0 "u" fixStOne notFoundFix {}
     rfl).2 (by decide)⟩

/-! ### C10 — input clamping -/

/-- C10: the effective limit is `max 1 (min 100 limit)`, the page size is
`max 1 (min 100 (perPage ?? 100))` and the page budget is
`max 1 (min 10 (maxPages ?? 5))`; consequently a completed response holds at
most 100 items for any options, at least one page fetch happens on every
completed run, and the preview endpoint clamps `limit` and `perPage` with the
same functions. -/
theorem getRecentActivity_clamping :
    (∀ l : ℤ, clampLimit l = max 1 (min 100 l) ∧ 1 ≤ clampLimit l ∧ clampLimit l ≤ 100)
    ∧ (∀ p : Option ℤ, clampPerPage p = max 1 (min 100 (p.getD 100))
        ∧ 1 ≤ clampPerPage p ∧ clampPerPage p ≤ 100)
    ∧ (∀ m : Option ℤ, clampMaxPages m = max 1 (min 10 (m.getD 5))
        ∧ 1 ≤ clampMaxPages m ∧ clampMaxPages m ≤ 10)
    ∧ (∀ (env : AggEnv) (options : AggOptions) (now : String) (r : ActivityFetchResult),
        getRecentActivity env options now = .ok r →
        r.data.items.length ≤ (clampLimit options.limit).toNat ∧ r.data.items.length ≤ 100)
    ∧ (∀ (env : AggEnv) (options : AggOptions) (st : AggState),
        runAggregation env options = .ok st → 1 ≤ st.pagesFetched)
    ∧ (∀ (env : AggEnv) (options : PreviewOptions) (now : String) (r : ActivityFetchResult),
        getRecentActivityPreview env options now = .ok r →
        r.data.items.length ≤ (clampLimit options.limit).toNat
        ∧ r.data.items.length ≤ 100) := by
  refine ⟨?_, ?_, ?_, ?_, ?_, ?_⟩
  · intro l
    refine ⟨rfl, le_max_left _ _, ?_⟩
    unfold clampLimit
    omega
  · intro p
    refine ⟨rfl, le_max_left _ _, ?_⟩
    unfold clampPerPage
    omega
  · intro m
    refine ⟨rfl, le_max_left _ _, ?_⟩
    unfold clampMaxPages
    omega
  · intro env options now r h
    unfold getRecentActivity at h
    cases hrun : runAggregation env options with
    | error e => rw [hrun] at h; cases h
    | ok st =>
      rw [hrun] at h
      simp only [Except.map] at h
      cases h
      have hlen : (buildResponse options.username now (clampLimit options.limit)
          st).data.items.length ≤ (clampLimit options.limit).toNat := by
        simp only [buildResponse]
        exact List.length_take_le _ _
      refine ⟨hlen, le_trans hlen ?_⟩
      have h100 : clampLimit options.limit ≤ 100 := by unfold clampLimit; omega
      omega
  · intro env options st h
    exact runAggregation_pages h
  · intro env options now r h
    simp only [getRecentActivityPreview] at h
    split at h
    · cases h
    · rename_i events nexturl heq
      cases h
      have hlen : (List.take (clampLimit options.limit).toNat
          (previewCollect (clampLimit options.limit) events [] [])).length ≤
          (clampLimit options.limit).toNat :=
        List.length_take_le _ _
      refine ⟨hlen, le_trans hlen ?_⟩
      have h100 : clampLimit options.limit ≤ 100 := by unfold clampLimit; omega
      omega

/-- Witness for C10 at a concrete run. -/
theorem getRecentActivity_clamping_witness :
    (fetchResultOr (getRecentActivity fixEnvOk fixOpts "NOW")).data.items.length ≤
      (clampLimit fixOpts.limit).toNat
    ∧ (fetchResultOr (getRecentActivity fixEnvOk fixOpts "NOW")).data.items.length ≤ 100
    ∧ 1 ≤ (runStateOr (runAggregation fixEnvOk fixOpts)).pagesFetched :=
  ⟨(getRecentActivity_clamping.2.2.2.1 fixEnvOk fixOpts "NOW" _ rfl).1,
   (getRecentActivity_clamping.2.2.2.1 fixEnvOk fixOpts "NOW" _ rfl).2,
   getRecentActivity_clamping.2.2.2.2.1 fixEnvOk fixOpts _ rfl⟩


theorem find?_append_left {α : Type} {p : α → Bool} {l₁ l₂ : List α} {a : α}
    (h : l₁.find? p = some a) : (l₁ ++ l₂).find? p = some a := by
  rw [List.find?_append, h]
  rfl

theorem find?_append_of_none {α : Type} {p : α → Bool} {l₁ l₂ : List α}
    (h : l₁.find? p = none) : (l₁ ++ l₂).find? p = l₂.find? p := by
  rw [List.find?_append, h, Option.none_or]

theorem previewCollect_inv (limit : ℤ) :
    ∀ (evs : List GitHubEvent) (items : List ActivityItem) (seen : List String)
      (prod0 : List ActivityItem),
      seen = items.map (fun it => it.url) →
      (items.map (fun it => it.url)).Nodup →
      (∀ p ∈ prod0, p.url ∈ seen) →
      (∀ it ∈ items, prod0.find? (fun j => j.url == it.url) = some it) →
      ((previewCollect limit evs items seen).map (fun it => it.url)).Nodup
      ∧ (∀ it ∈ previewCollect limit evs items seen,
          (prod0 ++ evs.filterMap normalizeEventPreview).find? (fun j => j.url == it.url)
            = some it) := by
  intro evs
  induction evs with
  | nil =>
    intro items seen prod0 hseen hnd hd hc
    refine ⟨hnd, ?_⟩
    intro it hit
    rw [List.filterMap_nil, List.append_nil]
    exact hc it hit
  | cons ev rest ih =>
    intro items seen prod0 hseen hnd hd hc
    cases hne : normalizeEventPreview ev with
    | none =>
      simp only [previewCollect, hne, List.filterMap_cons]
      exact ih items seen prod0 hseen hnd hd hc
    | some item =>
      simp only [previewCollect, hne, List.filterMap_cons]
      cases hcont : seen.contains item.url with
      | true =>
        rw [if_pos rfl]
        have hd' : ∀ p ∈ prod0 ++ [item], p.url ∈ seen := by
          intro p hp
          rcases List.mem_append.mp hp with h | h
          · exact hd p h
          · simp only [List.mem_singleton] at h
            subst h
            simpa using hcont
        have hc' : ∀ it ∈ items, (prod0 ++ [item]).find? (fun j => j.url == it.url) = some it :=
          fun it hit => find?_append_left (hc it hit)
        have hres := ih items seen (prod0 ++ [item]) hseen hnd hd' hc'
        refine ⟨hres.1, ?_⟩
        intro it hit
        have hfi := hres.2 it hit
        rwa [List.append_assoc, List.singleton_append] at hfi
      | false =>
        rw [if_neg Bool.false_ne_true]
        have hnotmem : item.url ∉ seen := by
          intro hmem
          simp [hmem] at hcont
        have hfind0 : prod0.find? (fun j => j.url == item.url) = none := by
          rw [List.find?_eq_none]
          intro p hp hbeq
          have hpu : p.url = item.url := by simpa using hbeq
          exact hnotmem (hpu ▸ hd p hp)
        have hseen' : seen ++ [item.url] = (items ++ [item]).map (fun it => it.url) := by
          rw [List.map_append, hseen]
          rfl
        have hnd' : ((items ++ [item]).map (fun it => it.url)).Nodup := by
          rw [List.map_append]
          refine List.nodup_append.mpr ⟨hnd, by simp, ?_⟩
          intro x hx hx'
          simp only [List.map_cons, List.map_nil, List.mem_singleton] at hx'
          subst hx'
          exact (hseen ▸ hnotmem) hx
        have hd' : ∀ p ∈ prod0 ++ [item], p.url ∈ seen ++ [item.url] := by
          intro p hp
          rcases List.mem_append.mp hp with h | h
          · exact List.mem_append_left _ (hd p h)
          · simp only [List.mem_singleton] at h
            subst h
            exact List.mem_append_right _ (by simp)
        have hc' : ∀ it ∈ items ++ [item],
            (prod0 ++ [item]).find? (fun j => j.url == it.url) = some it := by
          intro it hit
          rcases List.mem_append.mp hit with h | h
          · exact find?_append_left (hc it h)
          · simp only [List.mem_singleton] at h
            rw [h, find?_append_of_none hfind0]
            exact List.find?_cons_of_pos _ (by simp)
        by_cases hlim : limit ≤ ((items ++ [item]).length : ℤ)
        · rw [if_pos hlim]
          refine ⟨hnd', ?_⟩
          intro it hit
          rw [← List.singleton_append, ← List.append_assoc]
          exact find?_append_left (hc' it hit)
        · rw [if_neg hlim]
          have hres := ih (items ++ [item]) (seen ++ [item.url]) (prod0 ++ [item])
            hseen' hnd' hd' hc'
          refine ⟨hres.1, ?_⟩
          intro it hit
          have hfi := hres.2 it hit
          rwa [List.append_assoc, List.singleton_append] at hfi

/-- C2: every response of `getRecentActivity` has its items sorted by
`createdAt` descending (every adjacent pair `(a, b)` satisfies
`b.createdAt ≤ a.createdAt`), truncated to at most the clamped limit, and the
sort is stable: for every timestamp `t`, the response's items with
`createdAt = t` form a prefix of the collected items with `createdAt = t`, in
collection order. -/
theorem getRecentActivity_sort_stable_truncate
    (env : AggEnv) (options : AggOptions) (now : String) (st : AggState)
    (r : ActivityFetchResult)
    (hrun : runAggregation env options = .ok st)
    (hget : getRecentActivity env options now = .ok r) :
    List.Chain' (fun a b => b.createdAt ≤ a.createdAt) r.data.items
    ∧ r.data.items.length ≤ (clampLimit options.limit).toNat
    ∧ ∀ t : ℤ, ∃ rest, st.items.filter (fun it => it.createdAt == t)
        = r.data.items.filter (fun it => it.createdAt == t) ++ rest := by
  unfold getRecentActivity at hget
  rw [hrun] at hget
  simp only [Except.map] at hget
  cases hget
  refine ⟨?_, ?_, ?_⟩
  · have hpw := itemsSort_sorted st.items
    have hsub : List.Sublist
        ((st.items.insertionSort (fun a b => b.createdAt ≤ a.createdAt)).take
          (clampLimit options.limit).toNat)
        (st.items.insertionSort (fun a b => b.createdAt ≤ a.createdAt)) :=
      List.take_sublist _ _
    exact (hpw.sublist hsub).chain'
  · simp only [buildResponse]
    exact List.length_take_le _ _
  · intro t
    refine ⟨((st.items.insertionSort (fun a b => b.createdAt ≤ a.createdAt)).drop
      (clampLimit options.limit).toNat).filter (fun it => it.createdAt == t), ?_⟩
    rw [← itemsSort_filter_eq st.items t]
    conv_lhs => rw [← List.take_append_drop (clampLimit options.limit).toNat
      (st.items.insertionSort (fun a b => b.createdAt ≤ a.createdAt))]
    rw [List.filter_append]
    rfl

/-- Witness for C2 at a concrete run, with `t = 100`. -/
theorem getRecentActivity_sort_stable_truncate_witness :
    List.Chain' (fun a b => b.createdAt ≤ a.createdAt)
      (fetchResultOr (getRecentActivity fixEnvOk fixOpts "NOW")).data.items
    ∧ ∃ rest, (runStateOr (runAggregation fixEnvOk fixOpts)).items.filter
        (fun it => it.createdAt == (100 : ℤ))
        = (fetchResultOr (getRecentActivity fixEnvOk fixOpts "NOW")).data.items.filter
            (fun it => it.createdAt == (100 : ℤ)) ++ rest :=
  ⟨(getRecentActivity_sort_stable_truncate fixEnvOk fixOpts "NOW" _ _ rfl rfl).1,
   (getRecentActivity_sort_stable_truncate fixEnvOk fixOpts "NOW" _ _ rfl rfl).2.2 100⟩

/-- C8: fork filtering. (1) An event whose repository's fork flag resolved to
`true` in the memo is excluded from a page's candidate list, whatever its
kind. (2) Every produced item of a completed run comes from a processed
candidate event whose repository's memoized fork flag is `false`. (3) Every
item of the final response is one of the produced items. -/
theorem getRecentActivity_fork_filtering :
    (∀ (memo : List (String × Bool)) (events : List GitHubEvent) (ev : GitHubEvent),
      List.lookup ev.repoUrl memo = some true → ev ∉ pageCandidates memo events)
    ∧ (∀ (env : AggEnv) (options : AggOptions) (st : AggState),
        runAggregation env options = .ok st →
        ∀ it ∈ st.produced, ∃ ev, ev ∈ st.processedEvents ∧ it.id = ev.id ∧
          it.repo = eventRepo ev ∧ List.lookup ev.repoUrl st.forkMemo = some false)
    ∧ (∀ (env : AggEnv) (options : AggOptions) (now : String) (st : AggState)
         (r : ActivityFetchResult),
        runAggregation env options = .ok st →
        getRecentActivity env options now = .ok r →
        ∀ it ∈ r.data.items, it ∈ st.produced) := by
  refine ⟨?_, ?_, ?_⟩
  · intro memo events ev hlk hmem
    have hcond := (List.mem_filter.mp hmem).2
    rw [hlk] at hcond
    simp at hcond
  · intro env options st h it hit
    obtain ⟨hn, hk, ha, hb, hc, hd, he, hf⟩ := runAggregation_inv h
    obtain ⟨ev, hev, h1, h2⟩ := he it hit
    exact ⟨ev, hev, h1, h2, hf ev hev⟩
  · intro env options now st r hrun hget it hit
    unfold getRecentActivity at hget
    rw [hrun] at hget
    simp only [Except.map] at hget
    cases hget
    obtain ⟨hn, hk, ha, hb, hc, hd, he, hf⟩ := runAggregation_inv hrun
    have hit' : it ∈ st.items :=
      (itemsSort_perm st.items).mem_iff.mp (List.mem_of_mem_take hit)
    exact List.mem_of_find?_eq_some (hc it hit')

/-- Witness for C8 at concrete inputs: the issue event is excluded by a memo
marking its repository a fork, and the concretely produced response item is
among the produced items of the run. -/
theorem getRecentActivity_fork_filtering_witness :
    fixEvIssue ∉ pageCandidates [(fixEvIssue.repoUrl, true)] [fixEvIssue, fixEvPush]
    ∧ fixItem ∈ (runStateOr (runAggregation fixEnvOk fixOpts)).produced :=
  ⟨getRecentActivity_fork_filtering.1 [(fixEvIssue.repoUrl, true)]
      [fixEvIssue, fixEvPush] fixEvIssue rfl,
   getRecentActivity_fork_filtering.2.2 fixEnvOk fixOpts "NOW" _ _ rfl rfl fixItem
      (by decide)⟩

/-- C3: dedup first-wins. For `getRecentActivity`: the response's item urls
are pairwise distinct, and every response item is the first produced
(normalized, non-null) item with its url, in processing order. For
`getRecentActivityPreview`: the response's item urls are pairwise distinct,
and every response item is the first normalized item of the fetched page with
its url. -/
theorem getRecentActivity_dedup_first_wins :
    (∀ (env : AggEnv) (options : AggOptions) (now : String) (st : AggState)
       (r : ActivityFetchResult),
       runAggregation env options = .ok st →
       getRecentActivity env options now = .ok r →
       (r.data.items.map (fun it => it.url)).Nodup
       ∧ ∀ it ∈ r.data.items,
           st.produced.find? (fun j => j.url == it.url) = some it)
    ∧ (∀ (env : AggEnv) (options : PreviewOptions) (now : String)
         (events : List GitHubEvent) (nextUrl : Option String) (rl : RateLimitInfo)
         (r : ActivityFetchResult),
        fetchEventsPage
            (env.page (firstPageUrl options.username (clampPerPage options.perPage))) {}
          = (.ok events nextUrl, rl) →
        getRecentActivityPreview env options now = .ok r →
        (r.data.items.map (fun it => it.url)).Nodup
        ∧ ∀ it ∈ r.data.items,
            (events.filterMap normalizeEventPreview).find? (fun j => j.url == it.url)
              = some it) := by
  constructor
  · intro env options now st r hrun hget
    unfold getRecentActivity at hget
    rw [hrun] at hget
    simp only [Except.map] at hget
    cases hget
    obtain ⟨hn, hk, ha, hb, hc, hd, he, hf⟩ := runAggregation_inv hrun
    have hsortnd : ((st.items.insertionSort
        (fun a b => b.createdAt ≤ a.createdAt)).map (fun it => it.url)).Nodup :=
      (((itemsSort_perm st.items).map (fun it => it.url)).nodup_iff).mpr hb
    refine ⟨?_, ?_⟩
    · show (((st.items.insertionSort (fun a b => b.createdAt ≤ a.createdAt)).take
          (clampLimit options.limit).toNat).map (fun it => it.url)).Nodup
      exact hsortnd.sublist
        ((List.take_sublist _ _).map (fun it : ActivityItem => it.url))
    · intro it hit
      have hit' : it ∈ st.items :=
        (itemsSort_perm st.items).mem_iff.mp (List.mem_of_mem_take hit)
      exact hc it hit'
  · intro env options now events nextUrl rl r hpage hget
    simp only [getRecentActivityPreview, hpage] at hget
    cases hget
    have hres := previewCollect_inv (clampLimit options.limit) events [] [] []
      rfl List.nodup_nil (by intro p hp; cases hp) (by intro it hit; cases hit)
    refine ⟨?_, ?_⟩
    · show (((previewCollect (clampLimit options.limit) events [] []).take
          (clampLimit options.limit).toNat).map (fun it => it.url)).Nodup
      exact hres.1.sublist
        ((List.take_sublist _ _).map (fun it : ActivityItem => it.url))
    · intro it hit
      have hfi := hres.2 it (List.mem_of_mem_take hit)
      rwa [List.nil_append] at hfi

/-- Witness for C3 at concrete runs: distinct urls in the full response, the
concrete item is the first produced item with its url, and distinct urls in
the preview response. -/
theorem getRecentActivity_dedup_first_wins_witness :
    ((fetchResultOr (getRecentActivity fixEnvOk fixOpts "NOW")).data.items.map
        (fun it => it.url)).Nodup
    ∧ (runStateOr (runAggregation fixEnvOk fixOpts)).produced.find?
        (fun j => j.url == fixItem.url) = some fixItem
    ∧ ((fetchResultOr (getRecentActivityPreview fixEnvOk fixPrevOpts "NOW")).data.items.map
        (fun it => it.url)).Nodup :=
  ⟨(getRecentActivity_dedup_first_wins.1 fixEnvOk fixOpts "NOW" _ _ rfl rfl).1,
   (getRecentActivity_dedup_first_wins.1 fixEnvOk fixOpts "NOW" _ _ rfl rfl).2 fixItem
      (by decide),
   (getRecentActivity_dedup_first_wins.2 fixEnvOk fixPrevOpts "NOW" _ _ _ _ rfl rfl).1⟩

/-- C9 counterexample: two completed runs whose response has no `partial`
flag even though an enrichment call failed. In the first, the repository
fork-status lookup fails (fail-open absorbs it); in the second, a
pull-request prefetch fails but the memoized error is never consulted because
the limit is reached first. In both, `failures` is nonempty while the tracker
stayed clean and the response's partial flag is absent. -/
theorem getRecentActivity_partial_counterexample :
    (runAggregation fixEnvForkErr fixOpts).map
        (fun st => (st.tracker.isPartial, st.failures))
      = .ok (false, [RunFailure.forkFetch netErrFix])
    ∧ (runAggregation fixEnvPRErr fixOptsOne).map
        (fun st => (st.tracker.isPartial, st.failures))
      = .ok (false, [RunFailure.prFetch netErrFix])
    ∧ (getRecentActivity fixEnvForkErr fixOpts "NOW").map (fun r => r.data.isPartial)
      = .ok none
    ∧ (getRecentActivity fixEnvPRErr fixOptsOne "NOW").map (fun r => r.data.isPartial)
      = .ok none :=
  ⟨rfl, rfl, rfl, rfl⟩

/-- C9 (amended): in a completed run, `partial = true` in the response exactly
when the error tracker was set, in which case some page fetch or some
consulted pull-request fetch failed; when `partial` is absent, no page fetch
failed — but fork-status lookup failures and unconsulted pull-request
prefetch failures may still have occurred. -/
theorem getRecentActivity_partial_semantics
    (env : AggEnv) (options : AggOptions) (now : String) (st : AggState)
    (r : ActivityFetchResult)
    (hrun : runAggregation env options = .ok st)
    (hget : getRecentActivity env options now = .ok r) :
    (r.data.isPartial = some true ↔ st.tracker.isPartial = true)
    ∧ (r.data.isPartial = some true →
        ∃ e, RunFailure.pageFetch e ∈ st.failures ∨ RunFailure.prFetch e ∈ st.failures)
    ∧ (r.data.isPartial = none →
        ∀ e, RunFailure.pageFetch e ∉ st.failures) := by
  unfold getRecentActivity at hget
  rw [hrun] at hget
  simp only [Except.map] at hget
  cases hget
  obtain ⟨⟨⟨htr1, htr2⟩, hcauses, hmemo⟩, hpf, ha, hb, hc, hd, he, hf⟩ :=
    runAggregation_inv hrun
  have hflag : (buildResponse options.username now (clampLimit options.limit)
      st).data.isPartial = if st.tracker.isPartial then some true else none := rfl
  refine ⟨?_, ?_, ?_⟩
  · rw [hflag]
    cases hp : st.tracker.isPartial <;> simp [hp]
  · intro h
    rw [hflag] at h
    have hp : st.tracker.isPartial = true := by
      cases hp : st.tracker.isPartial
      · rw [hp] at h
        simp at h
      · rfl
    have hne := htr2.mp hp
    obtain ⟨e, he'⟩ := List.exists_mem_of_ne_nil _ hne
    exact ⟨e, hcauses e he'⟩
  · intro h e hmem
    rw [hflag] at h
    have hp : st.tracker.isPartial = false := by
      cases hp : st.tracker.isPartial
      · rfl
      · rw [hp] at h
        simp at h
    rw [hpf e hmem] at hp
    exact Bool.noConfusion hp

/-- Witness for the amended C9 at a clean concrete run. -/
theorem getRecentActivity_partial_semantics_witness :
    ((fetchResultOr (getRecentActivity fixEnvOk fixOpts "NOW")).data.isPartial = some true
      ↔ (runStateOr (runAggregation fixEnvOk fixOpts)).tracker.isPartial = true) :=
  (getRecentActivity_partial_semantics fixEnvOk fixOpts "NOW" _ _ rfl rfl).1
